import Mathlib

/-!
Shallow embedding of the Mibae halftone filter of the kanvas repository
(`src/unnamed/part_000`, `KanvasCanvas` module).  Pixel buffers are lists of
RGBA byte pixels, the pattern-tile cache is an association list keyed by the
five-field `Pattern` record, and JavaScript float edge cases that the filter
can hit (division by zero inside the normalization pass, `Uint8ClampedArray`
stores) are modelled explicitly by an extended-number type.
-/

namespace Kanvas

/-- RGB byte triple, the rendered value of one palette color string. -/
structure RGB where
  r : ℕ
  g : ℕ
  b : ℕ
deriving DecidableEq, Repr

instance : Inhabited RGB := ⟨⟨0, 0, 0⟩⟩

/-- One RGBA pixel of an `ImageData` buffer. -/
structure Pixel where
  r : ℕ
  g : ℕ
  b : ℕ
  a : ℕ
deriving DecidableEq, Repr

instance : Inhabited Pixel := ⟨⟨0, 0, 0, 0⟩⟩

abbrev ToneType := String

/-- Tone bitmap: a period-sized square list of boolean rows. -/
abbrev Tone := List (List Bool)

/-- Pattern: the five-part cache key of `patternImageDataCache`. -/
structure Pattern where
  toneType : ToneType
  backgroundColor : RGB
  foregroundColor : RGB
  offsetY : ℕ
  offsetX : ℕ
deriving DecidableEq, Repr

instance : Inhabited Pattern := ⟨⟨"", default, default, 0, 0⟩⟩

/-- Modelled from the spec: the `tones` and `palettes` modules and the
`tonePeriod` constant are imported by `KanvasCanvas` but are not present
under `src/`; the spec describes them as a fixed map from tone identifiers
to period-`P` square boolean bitmaps and a fixed map from palette names
("light", "dark", ...) to ordered color lists whose first entries are the
tier anchors.  They are bundled as a configuration record. -/
structure Config where
  tonePeriod : ℕ
  tones : List (ToneType × Tone)
  palettes : List (String × List RGB)

/-- Association-list lookup, the embedding of JavaScript object indexing. -/
def alookup {α β : Type} [DecidableEq α] : List (α × β) → α → Option β
  | [], _ => none
  | (k, v) :: rest, a => if a = k then some v else alookup rest a

/-- Bitmap access `tone.bitmap[i][j]`; an out-of-range JavaScript index reads
`undefined`, which is falsy, hence the `false` default. -/
def toneBitmapAt (t : Tone) (i j : ℕ) : Bool :=
  (t.getD i []).getD j false

/-- Lookup `tones[toneType]`. -/
def tonesGet (cfg : Config) (tt : ToneType) : Tone :=
  (alookup cfg.tones tt).getD []

/-- Tile rendered by the cache-miss branch of `getPatternImageData`: row-major
`tonePeriod × tonePeriod` pixels; pixel `(x, y)` is the foreground color when
`tone.bitmap[(y + offsetY) % tonePeriod][(x + offsetX) % tonePeriod]` holds,
else the background color, always fully opaque. -/
def renderPattern (cfg : Config) (p : Pattern) : List Pixel :=
  ((List.range cfg.tonePeriod).map (fun y =>
    (List.range cfg.tonePeriod).map (fun x =>
      let isForeground := toneBitmapAt (tonesGet cfg p.toneType)
        ((y + p.offsetY) % cfg.tonePeriod) ((x + p.offsetX) % cfg.tonePeriod)
      let c := if isForeground then p.foregroundColor else p.backgroundColor
      Pixel.mk c.r c.g c.b 255))).flatten

/-- State of `patternImageDataCache`: write-once association list from the
five-part key to the rendered tile. -/
abbrev Cache := List (Pattern × List Pixel)

/-- Embedding of `getPatternImageData`: return the cached tile on a hit,
otherwise render, store and return. -/
def getPatternImageDataS (cfg : Config) (cache : Cache) (p : Pattern) :
    List Pixel × Cache :=
  match alookup cache p with
  | some t => (t, cache)
  | none =>
    let t := renderPattern cfg p
    (t, (p, t) :: cache)

/-- Squared RGB distance of one window pixel against one tile pixel, the body
of the distance accumulation in `getBestPattern`. -/
def pixelSq (w t : Pixel) : ℤ :=
  ((w.r : ℤ) - t.r) ^ 2 + ((w.g : ℤ) - t.g) ^ 2 + ((w.b : ℤ) - t.b) ^ 2

/-- One iteration of the distance loop of `getBestPattern` with the cache
threaded through: a pixel whose alpha is not 255 is skipped before the tile
is ever fetched. -/
def distStepS (cfg : Config) (data : List Pixel) (p : Pattern)
    (acc : ℤ × Cache) (i : ℕ) : ℤ × Cache :=
  let px := data.getD i default
  if px.a ≠ 255 then acc
  else
    let fetched := getPatternImageDataS cfg acc.2 p
    (acc.1 + pixelSq px (fetched.1.getD i default), fetched.2)

/-- Distance loop of `getBestPattern` over the pixel indices of the window. -/
def patternDistanceS (cfg : Config) (cache : Cache) (data : List Pixel)
    (p : Pattern) : ℤ × Cache :=
  (List.range data.length).foldl (distStepS cfg data p) (0, cache)

/-- Cache-free iteration of the distance loop. -/
def distStep (cfg : Config) (data : List Pixel) (p : Pattern)
    (acc : ℤ) (i : ℕ) : ℤ :=
  let px := data.getD i default
  if px.a ≠ 255 then acc
  else acc + pixelSq px ((renderPattern cfg p).getD i default)

/-- Cache-free value of the distance loop, used to state cache-independence. -/
def patternDistance (cfg : Config) (data : List Pixel) (p : Pattern) : ℤ :=
  (List.range data.length).foldl (distStep cfg data p) 0

/-- One iteration of the candidate loop of `getBestPattern`: `none` plays the
role of the initial `Infinity` best distance, so the first candidate always
becomes the best; afterwards only a strictly smaller distance replaces it. -/
def bestStepS (cfg : Config) (data : List Pixel)
    (st : Pattern × Option ℤ × Cache) (p : Pattern) :
    Pattern × Option ℤ × Cache :=
  let r := patternDistanceS cfg st.2.2 data p
  match st.2.1 with
  | none => (p, some r.1, r.2)
  | some bd => if r.1 < bd then (p, some r.1, r.2) else (st.1, some bd, r.2)

/-- Embedding of `getBestPattern`; an empty candidate list yields `none`
(the source would return `undefined`). -/
def getBestPatternS (cfg : Config) (cache : Cache) (data : List Pixel)
    (patterns : List Pattern) : Option Pattern × Cache :=
  match patterns with
  | [] => (none, cache)
  | p0 :: _ =>
    let r := patterns.foldl (bestStepS cfg data) (p0, none, cache)
    (some r.1, r.2.2)

/-- Cache-free candidate step, on (best, best-distance-so-far) only. -/
def bestStep (cfg : Config) (data : List Pixel)
    (st : Pattern × Option ℤ) (p : Pattern) : Pattern × Option ℤ :=
  let d := patternDistance cfg data p
  match st.2 with
  | none => (p, some d)
  | some bd => if d < bd then (p, some d) else st

/-- Cache-free value of `getBestPattern`. -/
def getBestPattern (cfg : Config) (data : List Pixel)
    (patterns : List Pattern) : Option Pattern :=
  match patterns with
  | [] => none
  | p0 :: _ => some ((patterns.foldl (bestStep cfg data) (p0, none)).1)

/-- Cache invariant: every stored tile is the rendered tile of its key. -/
def goodCache (cfg : Config) (c : Cache) : Prop :=
  ∀ p t, alookup c p = some t → t = renderPattern cfg p

/-- Cache extension: entries already present keep their values. -/
def cacheExtends (c c' : Cache) : Prop :=
  ∀ q t, alookup c q = some t → alookup c' q = some t

/-- Extended JavaScript number, for the places where the filter can produce
NaN or an infinity: the flat-window division of the normalization pass. -/
inductive JsNum
  | fin (q : ℚ)
  | nan
  | pinf
  | ninf
deriving DecidableEq, Repr

/-- JavaScript division on finite operands: `0/0` is NaN and `q/0` is a
signed infinity; otherwise exact rational division. -/
def jsDiv (a b : ℚ) : JsNum :=
  if b = 0 then (if a = 0 then JsNum.nan else if 0 < a then JsNum.pinf else JsNum.ninf)
  else JsNum.fin (a / b)

/-- Round half to even, the rounding used by `Uint8ClampedArray` stores. -/
def roundHalfEven (q : ℚ) : ℤ :=
  let f := q.floor
  let r := q - f
  if r < 1 / 2 then f
  else if 1 / 2 < r then f + 1
  else if f % 2 = 0 then f else f + 1

/-- Store a finite value into a `Uint8ClampedArray` slot. -/
def clampQByte (q : ℚ) : ℕ := (max 0 (min 255 (roundHalfEven q))).toNat

/-- Store an extended value into a `Uint8ClampedArray` slot: NaN becomes 0,
the infinities clamp to the range ends. -/
def clampJsByte : JsNum → ℕ
  | JsNum.fin q => clampQByte q
  | JsNum.nan => 0
  | JsNum.pinf => 255
  | JsNum.ninf => 0

/-- Grayscale luma of the first normalization pass:
`r * 0.299 + g * 0.587 + b * 0.114` (float literals taken as rationals). -/
def lumaQ (px : Pixel) : ℚ :=
  (px.r : ℚ) * (299 / 1000) + (px.g : ℚ) * (587 / 1000) + (px.b : ℚ) * (114 / 1000)

/-- First normalization pass on one pixel: pixels whose alpha is not 255 are
skipped; otherwise the clamped luma is stored into R, G and B. -/
def grayscalePixel (px : Pixel) : Pixel :=
  if px.a ≠ 255 then px
  else
    let v := clampQByte (lumaQ px)
    ⟨v, v, v, px.a⟩

/-- Lightness samples of the first pass: the unclamped luma of every pixel
whose alpha is 255, in window order. -/
def lightnesses (w : List Pixel) : List ℚ :=
  (w.filter (fun px => px.a = 255)).map lumaQ

/-- `Math.max(...lightnesses)` for the nonempty case (the value is only read
while processing a solid pixel, which makes `lightnesses` nonempty). -/
def maxLightness (w : List Pixel) : ℚ :=
  match lightnesses w with
  | [] => 0
  | q :: qs => qs.foldl max q

/-- `Math.min(...lightnesses)` for the nonempty case. -/
def minLightness (w : List Pixel) : ℚ :=
  match lightnesses w with
  | [] => 0
  | q :: qs => qs.foldl min q

/-- Second normalization pass on one pixel: contrast-stretch the stored gray
byte by the window's min/max luma; a flat window divides by zero and the
result goes through the `Uint8ClampedArray` clamp. -/
def normalizePixel (minL maxL : ℚ) (px : Pixel) : Pixel :=
  if px.a ≠ 255 then px
  else
    let v := clampJsByte (jsDiv (((px.r : ℚ) - minL) * 255) (maxL - minL))
    ⟨v, v, v, px.a⟩

/-- Both passes of the window normalization in `applyMibaeFilter` (the source
runs one loop per pass over the copied window data; min and max come from the
unclamped lumas of the first pass). -/
def normalizeWindow (w : List Pixel) : List Pixel :=
  (w.map grayscalePixel).map (normalizePixel (minLightness w) (maxLightness w))

/-- `Object.values(palettes)`. -/
def palettesList (cfg : Config) : List (List RGB) :=
  cfg.palettes.map (fun e => e.2)

/-- `palettes.light[0]`, the background anchor of the tone stage. -/
def anchorLight (cfg : Config) : RGB :=
  ((alookup cfg.palettes "light").getD []).headD default

/-- `palettes.dark[0]`, the foreground anchor. -/
def anchorDark (cfg : Config) : RGB :=
  ((alookup cfg.palettes "dark").getD []).headD default

/-- `paletteFromLightness`: every palette keyed by its first color. -/
def paletteFromLightness (cfg : Config) : List (RGB × List RGB) :=
  (palettesList cfg).map (fun pal => (pal.headD default, pal))

/-- `Object.keys(paletteFromLightness)`: the tier anchor colors in order. -/
def tierHeads (cfg : Config) : List RGB :=
  (paletteFromLightness cfg).map (fun e => e.1)

/-- Candidates of the tone stage: every tone with the anchor colors. -/
def toneCandidates (cfg : Config) (oy ox : ℕ) : List Pattern :=
  cfg.tones.map (fun t => ⟨t.1, anchorLight cfg, anchorDark cfg, oy, ox⟩)

/-- Candidates of the background lightness-tier stage. -/
def bgTierCandidates (cfg : Config) (tt : ToneType) (oy ox : ℕ) : List Pattern :=
  (tierHeads cfg).map (fun c => ⟨tt, c, anchorDark cfg, oy, ox⟩)

/-- Candidates of the background color stage: the palette of the tier chosen
by the previous stage. -/
def bgColorCandidates (cfg : Config) (tt : ToneType) (tier : RGB) (oy ox : ℕ) :
    List Pattern :=
  ((alookup (paletteFromLightness cfg) tier).getD []).map
    (fun c => ⟨tt, c, anchorDark cfg, oy, ox⟩)

/-- Candidates of the foreground lightness-tier stage. -/
def fgTierCandidates (cfg : Config) (tt : ToneType) (bg : RGB) (oy ox : ℕ) :
    List Pattern :=
  (tierHeads cfg).map (fun c => ⟨tt, bg, c, oy, ox⟩)

/-- Candidates of the foreground color stage. -/
def fgColorCandidates (cfg : Config) (tt : ToneType) (bg tier : RGB) (oy ox : ℕ) :
    List Pattern :=
  ((alookup (paletteFromLightness cfg) tier).getD []).map
    (fun c => ⟨tt, bg, c, oy, ox⟩)

/-- Record of one `getBestPattern` call: the pixel data it searched against
and the candidate list it was given. -/
structure SearchRecord where
  data : List Pixel
  candidates : List Pattern
deriving DecidableEq, Repr

instance : Inhabited SearchRecord := ⟨⟨[], []⟩⟩

/-- Result of the per-cell pattern selection, with the call trace. -/
structure QuantResult where
  toneType : ToneType
  backgroundColor : RGB
  foregroundColor : RGB
  cache : Cache
  trace : List SearchRecord

/-- The sequential `getBestPattern` stages that `applyMibaeFilter` runs for
one output cell: tone (against the normalized window, anchors fixed), then
background tier, background color, foreground tier and foreground color, all
against the raw window, each stage reusing the previous results.  `none`
models the `undefined` destructuring crash on an empty candidate list. -/
def quantizeCell (cfg : Config) (cache : Cache) (normalized window : List Pixel)
    (oy ox : ℕ) : Option QuantResult :=
  let cands1 := toneCandidates cfg oy ox
  match getBestPatternS cfg cache normalized cands1 with
  | (none, _) => none
  | (some p1, c1) =>
    let tt := p1.toneType
    let cands2 := bgTierCandidates cfg tt oy ox
    match getBestPatternS cfg c1 window cands2 with
    | (none, _) => none
    | (some p2, c2) =>
      let cands3 := bgColorCandidates cfg tt p2.backgroundColor oy ox
      match getBestPatternS cfg c2 window cands3 with
      | (none, _) => none
      | (some p3, c3) =>
        let bg := p3.backgroundColor
        let cands4 := fgTierCandidates cfg tt bg oy ox
        match getBestPatternS cfg c3 window cands4 with
        | (none, _) => none
        | (some p4, c4) =>
          let cands5 := fgColorCandidates cfg tt bg p4.foregroundColor oy ox
          match getBestPatternS cfg c4 window cands5 with
          | (none, _) => none
          | (some p5, c5) =>
            some ⟨tt, bg, p5.foregroundColor, c5,
              [⟨normalized, cands1⟩, ⟨window, cands2⟩, ⟨window, cands3⟩,
               ⟨window, cands4⟩, ⟨window, cands5⟩]⟩

/-- Value triple selected for a cell, without the cache and trace. -/
def stripQuant (r : QuantResult) : ToneType × RGB × RGB :=
  (r.toneType, r.backgroundColor, r.foregroundColor)

/-- Cache-free value of the five selection stages. -/
def quantizeCellPure (cfg : Config) (normalized window : List Pixel)
    (oy ox : ℕ) : Option (ToneType × RGB × RGB) :=
  (getBestPattern cfg normalized (toneCandidates cfg oy ox)).bind (fun p1 =>
    let tt := p1.toneType
    (getBestPattern cfg window (bgTierCandidates cfg tt oy ox)).bind (fun p2 =>
      (getBestPattern cfg window
          (bgColorCandidates cfg tt p2.backgroundColor oy ox)).bind (fun p3 =>
        let bg := p3.backgroundColor
        (getBestPattern cfg window (fgTierCandidates cfg tt bg oy ox)).bind (fun p4 =>
          (getBestPattern cfg window
              (fgColorCandidates cfg tt bg p4.foregroundColor oy ox)).map (fun p5 =>
            (tt, bg, p5.foregroundColor))))))

/-- Configuration shape that the source presumes: at least one tone, at least
one palette, and no empty palette. -/
def wfConfig (cfg : Config) : Prop :=
  cfg.tones ≠ [] ∧ palettesList cfg ≠ [] ∧ ∀ pal ∈ palettesList cfg, pal ≠ []

/-- Single constant scaling every diffused error share. -/
def ditheringRate : ℚ := 1 / 2

/-- One entry of the error-diffusion pattern. -/
structure DitherEntry where
  deltaX : ℤ
  deltaY : ℤ
  rate : ℚ
deriving DecidableEq, Repr

instance : Inhabited DitherEntry := ⟨⟨0, 0, 0⟩⟩

/-- The Floyd-Steinberg diffusion table of the source. -/
def ditheringPattern : List DitherEntry :=
  [⟨1, 0, 7 / 16 * ditheringRate⟩, ⟨-1, 1, 3 / 16 * ditheringRate⟩,
   ⟨0, 1, 5 / 16 * ditheringRate⟩, ⟨1, 1, 1 / 16 * ditheringRate⟩]

/-- Canvas pixel buffer with its bounds. -/
structure Image where
  width : ℕ
  height : ℕ
  pix : ℤ → ℤ → Pixel

/-- `getImageData` of one pixel: out-of-canvas reads are transparent black. -/
def readPix (img : Image) (x y : ℤ) : Pixel :=
  if 0 ≤ x ∧ x < (img.width : ℤ) ∧ 0 ≤ y ∧ y < (img.height : ℤ) then img.pix x y
  else default

/-- `putImageData` of one pixel: out-of-canvas writes are clipped away. -/
def writePix (img : Image) (x y : ℤ) (px : Pixel) : Image :=
  if 0 ≤ x ∧ x < (img.width : ℤ) ∧ 0 ≤ y ∧ y < (img.height : ℤ) then
    ⟨img.width, img.height, fun a b => if a = x ∧ b = y then px else img.pix a b⟩
  else img

/-- `getImageData(bx, by, P, P)`: the row-major P by P window. -/
def getWindow (img : Image) (bx byy : ℤ) (P : ℕ) : List Pixel :=
  ((List.range P).map (fun dy =>
    (List.range P).map (fun dx => readPix img (bx + dx) (byy + dy)))).flatten

/-- `Uint8ClampedArray` compound `+=` store. -/
def addClamped (old : ℕ) (delta : ℚ) : ℕ := clampQByte ((old : ℚ) + delta)

/-- The `ditheringPattern.forEach` loop: read each neighbor of the shrunk
source buffer, add the scaled error per channel through the clamped store,
and write it back (writes outside the canvas are clipped). -/
def diffuseCell (src : Image) (x y : ℕ) (errR errG errB : ℚ) : Image :=
  ditheringPattern.foldl
    (fun img e =>
      let nx := (x : ℤ) + e.deltaX
      let ny := (y : ℤ) + e.deltaY
      let npx := readPix img nx ny
      writePix img nx ny
        ⟨addClamped npx.r (errR * e.rate), addClamped npx.g (errG * e.rate),
         addClamped npx.b (errB * e.rate), npx.a⟩)
    src

/-- Phase offsets of the cell at `(x, y)`: `offsetX = Math.abs(beginX %
tonePeriod)` and likewise for Y, with JavaScript's truncating remainder;
`tonePeriod / 2` is exact for the even period the spec prescribes. -/
def cellOffsets (cfg : Config) (x y : ℕ) : ℕ × ℕ :=
  ((Int.tmod ((x : ℤ) - (cfg.tonePeriod : ℤ) / 2) (cfg.tonePeriod : ℤ)).natAbs,
   (Int.tmod ((y : ℤ) - (cfg.tonePeriod : ℤ) / 2) (cfg.tonePeriod : ℤ)).natAbs)

/-- Body of the per-cell loop of `applyMibaeFilter`: extract the window
around the cell, normalize it, pick the pattern, stamp the chosen color into
the output grid, then diffuse the quantization error (original minus stamped
color, read back from the stamped pixel) into the source buffer. -/
def processCell (cfg : Config) (st : Image × (ℕ → ℕ → RGB) × Cache) (x y : ℕ) :
    Option (Image × (ℕ → ℕ → RGB) × Cache) :=
  let bx : ℤ := (x : ℤ) - (cfg.tonePeriod : ℤ) / 2
  let byy : ℤ := (y : ℤ) - (cfg.tonePeriod : ℤ) / 2
  let window := getWindow st.1 bx byy cfg.tonePeriod
  let normalized := normalizeWindow window
  let offs := cellOffsets cfg x y
  match quantizeCell cfg st.2.2 normalized window offs.2 offs.1 with
  | none => none
  | some r =>
    let tone := tonesGet cfg r.toneType
    let isFg := toneBitmapAt tone (y % cfg.tonePeriod) (x % cfg.tonePeriod)
    let color := if isFg then r.foregroundColor else r.backgroundColor
    let out' := fun a b => if a = x ∧ b = y then color else st.2.1 a b
    let orig := readPix st.1 x y
    let src' := diffuseCell st.1 x y ((orig.r : ℚ) - color.r)
      ((orig.g : ℚ) - color.g) ((orig.b : ℚ) - color.b)
    some (src', out', r.cache)

/-- Row-major cell order of the double loop: y outer, x inner. -/
def cellList (w h : ℕ) : List (ℕ × ℕ) :=
  ((List.range h).map (fun y => (List.range w).map (fun x => (x, y)))).flatten

/-- The whole filter pass over the shrunk source buffer, threading the source
buffer (mutated by dithering), the output grid and the pattern cache. -/
def applyMibaeFilter (cfg : Config) (src : Image) (out0 : ℕ → ℕ → RGB)
    (cache : Cache) : Option (Image × (ℕ → ℕ → RGB) × Cache) :=
  (cellList src.width src.height).foldl
    (fun st? cell => st?.bind (fun st => processCell cfg st cell.1 cell.2))
    (some (src, out0, cache))

/-- Small concrete configuration (period 2, two tones, a light and a dark
palette) used to instantiate the theorems on closed inputs. -/
def demoCfg : Config :=
  { tonePeriod := 2
  , tones := [("checker", [[true, false], [false, true]]),
              ("fill", [[true, true], [true, true]])]
  , palettes := [("light", [⟨255, 255, 255⟩, ⟨200, 200, 200⟩]),
                 ("dark", [⟨0, 0, 0⟩, ⟨50, 50, 50⟩])] }

/-- Concrete 2 by 2 window with one transparent pixel. -/
def demoWindow : List Pixel :=
  [⟨10, 20, 30, 255⟩, ⟨200, 100, 0, 255⟩, ⟨0, 0, 0, 0⟩, ⟨255, 255, 255, 255⟩]

/-- Fully solid uniform mid-gray window. -/
def demoUniform : List Pixel := List.replicate 4 ⟨128, 128, 128, 255⟩

/-- Window with no solid pixel at all. -/
def demoClear : List Pixel := List.replicate 4 ⟨10, 20, 30, 0⟩

/-- Concrete 2 by 2 source image. -/
def demoImage : Image :=
  ⟨2, 2, fun a b =>
    if 0 ≤ a ∧ a < 2 ∧ 0 ≤ b ∧ b < 2 then ⟨128, 128, 128, 255⟩ else default⟩

/-- Concrete pattern key. -/
def demoPattern : Pattern := ⟨"checker", ⟨255, 255, 255⟩, ⟨0, 0, 0⟩, 0, 0⟩

/-- Zero-sized source image, for closed pipeline statements. -/
def demoEmptyImage : Image := ⟨0, 0, fun _ _ => default⟩

/-- Concrete initial output grid. -/
def demoOut : ℕ → ℕ → RGB := fun _ _ => default

theorem alookup_cons {α β : Type} [DecidableEq α] (k : α) (v : β)
    (rest : List (α × β)) (a : α) :
    alookup ((k, v) :: rest) a = if a = k then some v else alookup rest a := rfl

theorem goodCache_nil (cfg : Config) : goodCache cfg [] := fun _ _ h => nomatch h

theorem cacheExtends_refl (c : Cache) : cacheExtends c c := fun _ _ h => h

theorem cacheExtends_trans {c₁ c₂ c₃ : Cache} (h₁ : cacheExtends c₁ c₂)
    (h₂ : cacheExtends c₂ c₃) : cacheExtends c₁ c₃ :=
  fun q t hq => h₂ q t (h₁ q t hq)

theorem getPID_hit {cfg : Config} {c : Cache} {p : Pattern} {t : List Pixel}
    (hc : alookup c p = some t) : getPatternImageDataS cfg c p = (t, c) := by
  unfold getPatternImageDataS
  rw [hc]

theorem getPID_miss {cfg : Config} {c : Cache} {p : Pattern}
    (hc : alookup c p = none) :
    getPatternImageDataS cfg c p =
      (renderPattern cfg p, (p, renderPattern cfg p) :: c) := by
  unfold getPatternImageDataS
  rw [hc]

theorem getPID_spec {cfg : Config} {c : Cache} (p : Pattern)
    (h : goodCache cfg c) :
    (getPatternImageDataS cfg c p).1 = renderPattern cfg p ∧
    goodCache cfg (getPatternImageDataS cfg c p).2 ∧
    cacheExtends c (getPatternImageDataS cfg c p).2 ∧
    alookup (getPatternImageDataS cfg c p).2 p = some (renderPattern cfg p) := by
  cases hc : alookup c p with
  | some t =>
    have ht := h p t hc
    rw [getPID_hit hc]
    exact ⟨ht, h, cacheExtends_refl c, by rw [hc, ht]⟩
  | none =>
    rw [getPID_miss hc]
    refine ⟨rfl, ?_, ?_, ?_⟩
    · intro q u hq
      rw [alookup_cons] at hq
      by_cases hqp : q = p
      · rw [if_pos hqp] at hq
        cases hq
        rw [hqp]
      · rw [if_neg hqp] at hq
        exact h q u hq
    · intro q u hq
      rw [alookup_cons]
      by_cases hqp : q = p
      · rw [hqp] at hq
        rw [hq] at hc
        cases hc
      · rw [if_neg hqp]
        exact hq
    · rw [alookup_cons, if_pos rfl]

theorem getD_flatten_of_uniform {α : Type} (d : α) :
    ∀ (ls : List (List α)) (P y x : ℕ), (∀ l ∈ ls, l.length = P) →
      x < P → y < ls.length →
      ls.flatten.getD (y * P + x) d = (ls.getD y []).getD x d := by
  intro ls
  induction ls with
  | nil =>
    intro P y x _ _ hy
    exact absurd hy (Nat.not_lt_zero y)
  | cons l rest ih =>
    intro P y x hlen hx hy
    cases y with
    | zero =>
      have hl : l.length = P := hlen l (List.mem_cons_self l rest)
      rw [List.flatten_cons, Nat.zero_mul, Nat.zero_add,
        List.getD_append _ _ _ _ (by rw [hl]; exact hx)]
      rfl
    | succ y' =>
      have hl : l.length = P := hlen l (List.mem_cons_self l rest)
      have hidx : (y' + 1) * P + x = l.length + (y' * P + x) := by
        rw [hl]; ring
      rw [List.flatten_cons, hidx,
        List.getD_append_right _ _ _ _ (Nat.le_add_right _ _),
        Nat.add_sub_cancel_left]
      have := ih P y' x (fun m hm => hlen m (List.mem_cons_of_mem l hm)) hx
        (Nat.lt_of_succ_lt_succ hy)
      rw [this]
      rfl

theorem getD_map_range {α : Type} (d : α) (P i : ℕ) (f : ℕ → α) (hi : i < P) :
    ((List.range P).map f).getD i d = f i := by
  rw [List.getD_eq_getElem _ _ (by simpa using hi), List.getElem_map,
    List.getElem_range]

theorem renderPattern_getD (cfg : Config) (p : Pattern) {x y : ℕ}
    (hx : x < cfg.tonePeriod) (hy : y < cfg.tonePeriod) :
    (renderPattern cfg p).getD (y * cfg.tonePeriod + x) default =
      (if toneBitmapAt (tonesGet cfg p.toneType)
          ((y + p.offsetY) % cfg.tonePeriod) ((x + p.offsetX) % cfg.tonePeriod)
       then Pixel.mk p.foregroundColor.r p.foregroundColor.g p.foregroundColor.b 255
       else Pixel.mk p.backgroundColor.r p.backgroundColor.g p.backgroundColor.b 255) := by
  unfold renderPattern
  rw [getD_flatten_of_uniform default _ cfg.tonePeriod y x
    (by
      intro l hl
      rcases List.mem_map.mp hl with ⟨y', _, rfl⟩
      simp) hx (by simpa using hy)]
  rw [getD_map_range _ _ _ _ hy, getD_map_range _ _ _ _ hx]
  by_cases hb : toneBitmapAt (tonesGet cfg p.toneType)
      ((y + p.offsetY) % cfg.tonePeriod) ((x + p.offsetX) % cfg.tonePeriod)
  · simp only [hb, if_true]
  · simp only [hb, if_false, Bool.false_eq_true]

theorem distFold_spec (cfg : Config) (data : List Pixel) (p : Pattern) :
    ∀ (is : List ℕ) (acc : ℤ) (c : Cache), goodCache cfg c →
      (is.foldl (distStepS cfg data p) (acc, c)).1 =
        is.foldl (distStep cfg data p) acc ∧
      goodCache cfg (is.foldl (distStepS cfg data p) (acc, c)).2 ∧
      cacheExtends c (is.foldl (distStepS cfg data p) (acc, c)).2 := by
  intro is
  induction is with
  | nil =>
    intro acc c h
    exact ⟨rfl, h, cacheExtends_refl c⟩
  | cons i rest ih =>
    intro acc c h
    rw [List.foldl_cons, List.foldl_cons]
    by_cases ha : (data.getD i default).a ≠ 255
    · have e1 : distStepS cfg data p (acc, c) i = (acc, c) := by
        unfold distStepS
        rw [if_pos ha]
      have e2 : distStep cfg data p acc i = acc := by
        unfold distStep
        rw [if_pos ha]
      rw [e1, e2]
      exact ih acc c h
    · obtain ⟨hfst, hgood, hext, _⟩ := getPID_spec p h
      have e1 : distStepS cfg data p (acc, c) i =
          (acc + pixelSq (data.getD i default)
            ((renderPattern cfg p).getD i default),
           (getPatternImageDataS cfg c p).2) := by
        unfold distStepS
        rw [if_neg ha]
        dsimp only
        rw [hfst]
      have e2 : distStep cfg data p acc i =
          acc + pixelSq (data.getD i default)
            ((renderPattern cfg p).getD i default) := by
        unfold distStep
        rw [if_neg ha]
      rw [e1, e2]
      obtain ⟨r1, r2, r3⟩ := ih
        (acc + pixelSq (data.getD i default) ((renderPattern cfg p).getD i default))
        (getPatternImageDataS cfg c p).2 hgood
      exact ⟨r1, r2, cacheExtends_trans hext r3⟩

theorem patternDistanceS_spec {cfg : Config} {c : Cache} (data : List Pixel)
    (p : Pattern) (h : goodCache cfg c) :
    (patternDistanceS cfg c data p).1 = patternDistance cfg data p ∧
    goodCache cfg (patternDistanceS cfg c data p).2 ∧
    cacheExtends c (patternDistanceS cfg c data p).2 :=
  distFold_spec cfg data p (List.range data.length) 0 c h

theorem bestFold_spec (cfg : Config) (data : List Pixel) :
    ∀ (ps : List Pattern) (bst : Pattern) (bdo : Option ℤ) (c : Cache),
      goodCache cfg c →
      ((ps.foldl (bestStepS cfg data) (bst, bdo, c)).1,
        (ps.foldl (bestStepS cfg data) (bst, bdo, c)).2.1) =
        ps.foldl (bestStep cfg data) (bst, bdo) ∧
      goodCache cfg (ps.foldl (bestStepS cfg data) (bst, bdo, c)).2.2 ∧
      cacheExtends c (ps.foldl (bestStepS cfg data) (bst, bdo, c)).2.2 := by
  intro ps
  induction ps with
  | nil =>
    intro bst bdo c h
    exact ⟨rfl, h, cacheExtends_refl c⟩
  | cons p rest ih =>
    intro bst bdo c h
    rw [List.foldl_cons, List.foldl_cons]
    obtain ⟨hd, hgood, hext⟩ := patternDistanceS_spec data p h
    cases bdo with
    | none =>
      have e1 : bestStepS cfg data (bst, none, c) p =
          (p, some (patternDistance cfg data p), (patternDistanceS cfg c data p).2) := by
        unfold bestStepS
        simp only [← hd]
      have e2 : bestStep cfg data (bst, none) p =
          (p, some (patternDistance cfg data p)) := rfl
      rw [e1, e2]
      obtain ⟨r1, r2, r3⟩ := ih p (some (patternDistance cfg data p))
        (patternDistanceS cfg c data p).2 hgood
      exact ⟨r1, r2, cacheExtends_trans hext r3⟩
    | some bd =>
      by_cases hlt : patternDistance cfg data p < bd
      · have e1 : bestStepS cfg data (bst, some bd, c) p =
            (p, some (patternDistance cfg data p),
              (patternDistanceS cfg c data p).2) := by
          unfold bestStepS
          simp only [hd, if_pos hlt]
        have e2 : bestStep cfg data (bst, some bd) p =
            (p, some (patternDistance cfg data p)) := by
          unfold bestStep
          simp only [if_pos hlt]
        rw [e1, e2]
        obtain ⟨r1, r2, r3⟩ := ih p (some (patternDistance cfg data p))
          (patternDistanceS cfg c data p).2 hgood
        exact ⟨r1, r2, cacheExtends_trans hext r3⟩
      · have e1 : bestStepS cfg data (bst, some bd, c) p =
            (bst, some bd, (patternDistanceS cfg c data p).2) := by
          unfold bestStepS
          simp only [hd, if_neg hlt]
        have e2 : bestStep cfg data (bst, some bd) p = (bst, some bd) := by
          unfold bestStep
          simp only [if_neg hlt]
        rw [e1, e2]
        obtain ⟨r1, r2, r3⟩ := ih bst (some bd)
          (patternDistanceS cfg c data p).2 hgood
        exact ⟨r1, r2, cacheExtends_trans hext r3⟩

theorem getBestPatternS_fst {cfg : Config} {c : Cache} (data : List Pixel)
    (ps : List Pattern) (h : goodCache cfg c) :
    (getBestPatternS cfg c data ps).1 = getBestPattern cfg data ps := by
  cases ps with
  | nil => rfl
  | cons p0 rest =>
    have e : getBestPatternS cfg c data (p0 :: rest) =
        (some ((p0 :: rest).foldl (bestStepS cfg data) (p0, none, c)).1,
         ((p0 :: rest).foldl (bestStepS cfg data) (p0, none, c)).2.2) := rfl
    have e2 : getBestPattern cfg data (p0 :: rest) =
        some ((p0 :: rest).foldl (bestStep cfg data) (p0, none)).1 := rfl
    rw [e, e2]
    obtain ⟨hpair, _, _⟩ := bestFold_spec cfg data (p0 :: rest) p0 none c h
    have := congrArg Prod.fst hpair
    simp only at this
    exact congrArg some this

theorem getBestPatternS_good {cfg : Config} {c : Cache} (data : List Pixel)
    (ps : List Pattern) (h : goodCache cfg c) :
    goodCache cfg (getBestPatternS cfg c data ps).2 := by
  cases ps with
  | nil => exact h
  | cons p0 rest =>
    have e : getBestPatternS cfg c data (p0 :: rest) =
        (some ((p0 :: rest).foldl (bestStepS cfg data) (p0, none, c)).1,
         ((p0 :: rest).foldl (bestStepS cfg data) (p0, none, c)).2.2) := rfl
    rw [e]
    obtain ⟨_, hg, _⟩ := bestFold_spec cfg data (p0 :: rest) p0 none c h
    exact hg

theorem bestFoldPure_spec (cfg : Config) (data : List Pixel) :
    ∀ (ps : List Pattern) (bst : Pattern) (bd : ℤ),
      (ps.foldl (bestStep cfg data) (bst, some bd) = (bst, some bd) ∧
        ∀ q ∈ ps, bd ≤ patternDistance cfg data q) ∨
      (∃ i, i < ps.length ∧
        ps.foldl (bestStep cfg data) (bst, some bd) =
          (ps.getD i default, some (patternDistance cfg data (ps.getD i default))) ∧
        patternDistance cfg data (ps.getD i default) < bd ∧
        (∀ j, j < i → patternDistance cfg data (ps.getD i default) <
          patternDistance cfg data (ps.getD j default)) ∧
        (∀ j, j < ps.length → patternDistance cfg data (ps.getD i default) ≤
          patternDistance cfg data (ps.getD j default))) := by
  intro ps
  induction ps with
  | nil =>
    intro bst bd
    left
    exact ⟨rfl, fun q hq => absurd hq (List.not_mem_nil q)⟩
  | cons p rest ih =>
    intro bst bd
    rw [List.foldl_cons]
    have hstep : bestStep cfg data (bst, some bd) p =
        if patternDistance cfg data p < bd
        then (p, some (patternDistance cfg data p)) else (bst, some bd) := rfl
    by_cases hlt : patternDistance cfg data p < bd
    · rw [hstep, if_pos hlt]
      rcases ih p (patternDistance cfg data p) with
        ⟨heq, hall⟩ | ⟨i, hi, heq, hless, hprev, hmin⟩
      · right
        refine ⟨0, Nat.succ_pos _, ?_, hlt, ?_, ?_⟩
        · rw [heq]
          simp [List.getD_cons_zero]
        · intro j hj
          exact absurd hj (Nat.not_lt_zero j)
        · intro j hj
          cases j with
          | zero => exact le_refl _
          | succ j' =>
            have hj' : j' < rest.length := Nat.lt_of_succ_lt_succ hj
            have hmem : rest.getD j' default ∈ rest := by
              rw [List.getD_eq_getElem _ _ hj']
              exact List.getElem_mem _
            exact hall _ hmem
      · right
        refine ⟨i + 1, Nat.succ_lt_succ hi, ?_, lt_trans hless hlt, ?_, ?_⟩
        · rw [heq]
          rfl
        · intro j hj
          cases j with
          | zero => exact hless
          | succ j' => exact hprev j' (Nat.lt_of_succ_lt_succ hj)
        · intro j hj
          cases j with
          | zero => exact le_of_lt hless
          | succ j' => exact hmin j' (Nat.lt_of_succ_lt_succ hj)
    · rw [hstep, if_neg hlt]
      rcases ih bst bd with ⟨heq, hall⟩ | ⟨i, hi, heq, hless, hprev, hmin⟩
      · left
        refine ⟨heq, ?_⟩
        intro q hq
        rcases List.mem_cons.mp hq with rfl | hq'
        · exact not_lt.mp hlt
        · exact hall q hq'
      · right
        refine ⟨i + 1, Nat.succ_lt_succ hi, ?_, hless, ?_, ?_⟩
        · rw [heq]
          rfl
        · intro j hj
          cases j with
          | zero => exact lt_of_lt_of_le hless (not_lt.mp hlt)
          | succ j' => exact hprev j' (Nat.lt_of_succ_lt_succ hj)
        · intro j hj
          cases j with
          | zero => exact le_of_lt (lt_of_lt_of_le hless (not_lt.mp hlt))
          | succ j' => exact hmin j' (Nat.lt_of_succ_lt_succ hj)

theorem getBestPattern_firstMin (cfg : Config) (data : List Pixel)
    (p0 : Pattern) (rest : List Pattern) :
    ∃ i, i < (p0 :: rest).length ∧
      getBestPattern cfg data (p0 :: rest) = some ((p0 :: rest).getD i default) ∧
      (∀ j, j < i → patternDistance cfg data ((p0 :: rest).getD i default) <
        patternDistance cfg data ((p0 :: rest).getD j default)) ∧
      (∀ j, j < (p0 :: rest).length →
        patternDistance cfg data ((p0 :: rest).getD i default) ≤
        patternDistance cfg data ((p0 :: rest).getD j default)) := by
  have e2 : getBestPattern cfg data (p0 :: rest) =
      some ((p0 :: rest).foldl (bestStep cfg data) (p0, none)).1 := rfl
  have estep : (p0 :: rest).foldl (bestStep cfg data) (p0, none) =
      rest.foldl (bestStep cfg data) (p0, some (patternDistance cfg data p0)) := by
    rw [List.foldl_cons]
    rfl
  rcases bestFoldPure_spec cfg data rest p0 (patternDistance cfg data p0) with
    ⟨heq, hall⟩ | ⟨i, hi, heq, hless, hprev, hmin⟩
  · refine ⟨0, Nat.succ_pos _, ?_, ?_, ?_⟩
    · rw [e2, estep, heq]
      simp [List.getD_cons_zero]
    · intro j hj
      exact absurd hj (Nat.not_lt_zero j)
    · intro j hj
      cases j with
      | zero => exact le_refl _
      | succ j' =>
        have hj' : j' < rest.length := Nat.lt_of_succ_lt_succ hj
        have hmem : rest.getD j' default ∈ rest := by
          rw [List.getD_eq_getElem _ _ hj']
          exact List.getElem_mem _
        exact hall _ hmem
  · refine ⟨i + 1, Nat.succ_lt_succ hi, ?_, ?_, ?_⟩
    · rw [e2, estep, heq]
      simp [List.getD_cons_succ]
    · intro j hj
      cases j with
      | zero => exact hless
      | succ j' => exact hprev j' (Nat.lt_of_succ_lt_succ hj)
    · intro j hj
      cases j with
      | zero => exact le_of_lt hless
      | succ j' => exact hmin j' (Nat.lt_of_succ_lt_succ hj)

theorem getBestPattern_mem {cfg : Config} {data : List Pixel}
    {ps : List Pattern} {p : Pattern}
    (h : getBestPattern cfg data ps = some p) : p ∈ ps := by
  cases ps with
  | nil => simp [getBestPattern] at h
  | cons p0 rest =>
    obtain ⟨i, hi, heq, _, _⟩ := getBestPattern_firstMin cfg data p0 rest
    rw [heq] at h
    have hp := Option.some.inj h
    rw [← hp, List.getD_eq_getElem _ _ hi]
    exact List.getElem_mem _

theorem getBestPatternS_split {cfg : Config} {c : Cache} (data : List Pixel)
    (ps : List Pattern) (h : goodCache cfg c) :
    getBestPatternS cfg c data ps =
      (getBestPattern cfg data ps, (getBestPatternS cfg c data ps).2) ∧
    goodCache cfg (getBestPatternS cfg c data ps).2 := by
  constructor
  · rw [← getBestPatternS_fst data ps h]
  · exact getBestPatternS_good data ps h

theorem getBestPattern_isSome (cfg : Config) (data : List Pixel)
    {ps : List Pattern} (h : ps ≠ []) :
    ∃ q, getBestPattern cfg data ps = some q ∧ q ∈ ps := by
  cases ps with
  | nil => exact absurd rfl h
  | cons p0 rest =>
    obtain ⟨i, hi, heq, _, _⟩ := getBestPattern_firstMin cfg data p0 rest
    refine ⟨(p0 :: rest).getD i default, heq, ?_⟩
    rw [List.getD_eq_getElem _ _ hi]
    exact List.getElem_mem _

theorem alookup_of_mem_keys {α β : Type} [DecidableEq α] :
    ∀ (l : List (α × β)) (a : α), a ∈ l.map Prod.fst →
      ∃ b, alookup l a = some b ∧ (a, b) ∈ l := by
  intro l
  induction l with
  | nil =>
    intro a ha
    simp at ha
  | cons kv rest ih =>
    intro a ha
    by_cases hk : a = kv.1
    · refine ⟨kv.2, ?_, ?_⟩
      · show alookup ((kv.1, kv.2) :: rest) a = some kv.2
        rw [alookup_cons, if_pos hk]
      · rw [hk]
        exact List.mem_cons_self kv rest
    · rcases List.mem_map.mp ha with ⟨e, he, hfst⟩
      rcases List.mem_cons.mp he with rfl | he'
      · exact absurd hfst.symm hk
      · obtain ⟨b, hb, hmem⟩ := ih a (List.mem_map.mpr ⟨e, he', hfst⟩)
        refine ⟨b, ?_, List.mem_cons_of_mem kv hmem⟩
        show alookup ((kv.1, kv.2) :: rest) a = some b
        rw [alookup_cons, if_neg hk]
        exact hb

theorem pfl_lookup {cfg : Config} {tier : RGB} (h : tier ∈ tierHeads cfg) :
    ∃ pal, alookup (paletteFromLightness cfg) tier = some pal ∧
      pal ∈ palettesList cfg := by
  obtain ⟨pal, hl, hmem⟩ := alookup_of_mem_keys (paletteFromLightness cfg) tier h
  refine ⟨pal, hl, ?_⟩
  rcases List.mem_map.mp hmem with ⟨q, hq, he⟩
  have hqp : q = pal := congrArg Prod.snd he
  rw [← hqp]
  exact hq

theorem quantizeCell_strip (cfg : Config) (n w : List Pixel) (oy ox : ℕ)
    (c : Cache) (h : goodCache cfg c) :
    Option.map stripQuant (quantizeCell cfg c n w oy ox) =
      quantizeCellPure cfg n w oy ox ∧
    ∀ r, quantizeCell cfg c n w oy ox = some r → goodCache cfg r.cache := by
  obtain ⟨hs1, hg1⟩ := getBestPatternS_split n (toneCandidates cfg oy ox) h
  simp only [quantizeCell, quantizeCellPure]
  rw [hs1]
  cases ho1 : getBestPattern cfg n (toneCandidates cfg oy ox) with
  | none => exact ⟨rfl, fun r hr => nomatch hr⟩
  | some p1 =>
    simp only [Option.some_bind]
    obtain ⟨hs2, hg2⟩ := getBestPatternS_split w
      (bgTierCandidates cfg p1.toneType oy ox) hg1
    rw [hs2]
    cases ho2 : getBestPattern cfg w (bgTierCandidates cfg p1.toneType oy ox) with
    | none => exact ⟨rfl, fun r hr => nomatch hr⟩
    | some p2 =>
      simp only [Option.some_bind]
      obtain ⟨hs3, hg3⟩ := getBestPatternS_split w
        (bgColorCandidates cfg p1.toneType p2.backgroundColor oy ox) hg2
      rw [hs3]
      cases ho3 : getBestPattern cfg w
          (bgColorCandidates cfg p1.toneType p2.backgroundColor oy ox) with
      | none => exact ⟨rfl, fun r hr => nomatch hr⟩
      | some p3 =>
        simp only [Option.some_bind]
        obtain ⟨hs4, hg4⟩ := getBestPatternS_split w
          (fgTierCandidates cfg p1.toneType p3.backgroundColor oy ox) hg3
        rw [hs4]
        cases ho4 : getBestPattern cfg w
            (fgTierCandidates cfg p1.toneType p3.backgroundColor oy ox) with
        | none => exact ⟨rfl, fun r hr => nomatch hr⟩
        | some p4 =>
          simp only [Option.some_bind]
          obtain ⟨hs5, hg5⟩ := getBestPatternS_split w
            (fgColorCandidates cfg p1.toneType p3.backgroundColor
              p4.foregroundColor oy ox) hg4
          rw [hs5]
          cases ho5 : getBestPattern cfg w
              (fgColorCandidates cfg p1.toneType p3.backgroundColor
                p4.foregroundColor oy ox) with
          | none => exact ⟨rfl, fun r hr => nomatch hr⟩
          | some p5 =>
            refine ⟨rfl, ?_⟩
            intro r hr
            cases hr
            exact hg5

theorem normalizeWindow_getD {w : List Pixel} {i : ℕ} (hi : i < w.length) :
    (normalizeWindow w).getD i default =
      normalizePixel (minLightness w) (maxLightness w)
        (grayscalePixel (w.getD i default)) := by
  unfold normalizeWindow
  have h1 : i < (w.map grayscalePixel).length := by simpa using hi
  have h2 : i < ((w.map grayscalePixel).map
      (normalizePixel (minLightness w) (maxLightness w))).length := by simpa using hi
  rw [List.getD_eq_getElem _ _ h2, List.getElem_map, List.getElem_map,
    List.getD_eq_getElem _ _ hi]

theorem grayscalePixel_transparent {px : Pixel} (h : px.a ≠ 255) :
    grayscalePixel px = px := by
  unfold grayscalePixel
  rw [if_pos h]

theorem normalizePixel_transparent {minL maxL : ℚ} {px : Pixel} (h : px.a ≠ 255) :
    normalizePixel minL maxL px = px := by
  unfold normalizePixel
  rw [if_pos h]

theorem grayscalePixel_alpha (px : Pixel) : (grayscalePixel px).a = px.a := by
  unfold grayscalePixel
  by_cases h : px.a ≠ 255
  · rw [if_pos h]
  · rw [if_neg h]

theorem normalizePixel_alpha (minL maxL : ℚ) (px : Pixel) :
    (normalizePixel minL maxL px).a = px.a := by
  unfold normalizePixel
  by_cases h : px.a ≠ 255
  · rw [if_pos h]
  · rw [if_neg h]

theorem lightnesses_cons (px : Pixel) (rest : List Pixel) :
    lightnesses (px :: rest) =
      if px.a = 255 then lumaQ px :: lightnesses rest else lightnesses rest := by
  unfold lightnesses
  rw [List.filter_cons]
  by_cases ha : px.a = 255
  · simp [ha]
  · simp [ha]

theorem lightnesses_congr :
    ∀ (w w' : List Pixel), w.length = w'.length →
      (∀ i, i < w.length →
        ((w.getD i default).a = 255 ↔ (w'.getD i default).a = 255) ∧
        ((w.getD i default).a = 255 → w.getD i default = w'.getD i default)) →
      lightnesses w = lightnesses w' := by
  intro w
  induction w with
  | nil =>
    intro w' hlen _
    cases w' with
    | nil => rfl
    | cons _ _ => cases hlen
  | cons px rest ih =>
    intro w' hlen hpt
    cases w' with
    | nil => cases hlen
    | cons px' rest' =>
      have h0 := hpt 0 (Nat.succ_pos _)
      have hl : rest.length = rest'.length := Nat.succ.inj hlen
      have htail : ∀ i, i < rest.length →
          ((rest.getD i default).a = 255 ↔ (rest'.getD i default).a = 255) ∧
          ((rest.getD i default).a = 255 →
            rest.getD i default = rest'.getD i default) :=
        fun i hi => hpt (i + 1) (Nat.succ_lt_succ hi)
      have ht : lightnesses rest = lightnesses rest' := ih rest' hl htail
      rw [lightnesses_cons, lightnesses_cons]
      by_cases ha : px.a = 255
      · have ha' : px'.a = 255 := (h0.1).mp ha
        have he : px = px' := h0.2 ha
        rw [if_pos ha, if_pos ha', he, ht]
      · have ha' : ¬px'.a = 255 := fun hx => ha ((h0.1).mpr hx)
        rw [if_neg ha, if_neg ha', ht]

theorem lightnesses_all_const {w : List Pixel} {cavg : ℚ}
    (h : ∀ px ∈ w, px.a = 255 → lumaQ px = cavg) :
    ∀ q ∈ lightnesses w, q = cavg := by
  intro q hq
  unfold lightnesses at hq
  rcases List.mem_map.mp hq with ⟨px, hpx, he⟩
  have hmem := List.mem_of_mem_filter hpx
  have hsolid : px.a = 255 := by
    have := List.of_mem_filter hpx
    simpa using this
  rw [← he]
  exact h px hmem hsolid

theorem lightnesses_ne_nil {w : List Pixel}
    (h : ∃ px ∈ w, px.a = 255) : lightnesses w ≠ [] := by
  rcases h with ⟨px, hmem, hsolid⟩
  unfold lightnesses
  intro hnil
  have : px ∈ w.filter (fun px => px.a = 255) :=
    List.mem_filter.mpr ⟨hmem, by simpa using hsolid⟩
  rw [List.map_eq_nil_iff] at hnil
  rw [hnil] at this
  exact List.not_mem_nil px this

theorem foldl_max_const {cavg : ℚ} :
    ∀ (l : List ℚ), (∀ q ∈ l, q = cavg) → l.foldl max cavg = cavg := by
  intro l
  induction l with
  | nil => intro _; rfl
  | cons q qs ih =>
    intro h
    rw [List.foldl_cons, h q (List.mem_cons_self q qs), max_self]
    exact ih fun q' hq' => h q' (List.mem_cons_of_mem q hq')

theorem foldl_min_const {cavg : ℚ} :
    ∀ (l : List ℚ), (∀ q ∈ l, q = cavg) → l.foldl min cavg = cavg := by
  intro l
  induction l with
  | nil => intro _; rfl
  | cons q qs ih =>
    intro h
    rw [List.foldl_cons, h q (List.mem_cons_self q qs), min_self]
    exact ih fun q' hq' => h q' (List.mem_cons_of_mem q hq')

theorem maxLightness_const {w : List Pixel} {cavg : ℚ}
    (h : ∀ px ∈ w, px.a = 255 → lumaQ px = cavg)
    (hne : ∃ px ∈ w, px.a = 255) : maxLightness w = cavg := by
  have hall := lightnesses_all_const h
  have hnil := lightnesses_ne_nil hne
  unfold maxLightness
  cases hq : lightnesses w with
  | nil => exact absurd hq hnil
  | cons q qs =>
    have hq0 : q = cavg := hall q (hq ▸ List.mem_cons_self q qs)
    rw [hq0]
    exact foldl_max_const qs fun q' hq' =>
      hall q' (hq ▸ List.mem_cons_of_mem q hq')

theorem minLightness_const {w : List Pixel} {cavg : ℚ}
    (h : ∀ px ∈ w, px.a = 255 → lumaQ px = cavg)
    (hne : ∃ px ∈ w, px.a = 255) : minLightness w = cavg := by
  have hall := lightnesses_all_const h
  have hnil := lightnesses_ne_nil hne
  unfold minLightness
  cases hq : lightnesses w with
  | nil => exact absurd hq hnil
  | cons q qs =>
    have hq0 : q = cavg := hall q (hq ▸ List.mem_cons_self q qs)
    rw [hq0]
    exact foldl_min_const qs fun q' hq' =>
      hall q' (hq ▸ List.mem_cons_of_mem q hq')

theorem clampJsByte_div_zero (a : ℚ) :
    clampJsByte (jsDiv a 0) = if 0 < a then 255 else 0 := by
  by_cases h0 : a = 0
  · simp [jsDiv, h0, clampJsByte]
  · by_cases hp : 0 < a
    · simp [jsDiv, h0, hp, clampJsByte]
    · simp [jsDiv, h0, hp, clampJsByte]

theorem writePix_width (img : Image) (x y : ℤ) (px : Pixel) :
    (writePix img x y px).width = img.width := by
  unfold writePix
  by_cases h : 0 ≤ x ∧ x < (img.width : ℤ) ∧ 0 ≤ y ∧ y < (img.height : ℤ)
  · rw [if_pos h]
  · rw [if_neg h]

theorem writePix_height (img : Image) (x y : ℤ) (px : Pixel) :
    (writePix img x y px).height = img.height := by
  unfold writePix
  by_cases h : 0 ≤ x ∧ x < (img.width : ℤ) ∧ 0 ≤ y ∧ y < (img.height : ℤ)
  · rw [if_pos h]
  · rw [if_neg h]

theorem readPix_writePix_ne {img : Image} {x y : ℤ} {px : Pixel} {a b : ℤ}
    (hne : ¬(a = x ∧ b = y)) :
    readPix (writePix img x y px) a b = readPix img a b := by
  unfold writePix readPix
  by_cases hin : 0 ≤ x ∧ x < (img.width : ℤ) ∧ 0 ≤ y ∧ y < (img.height : ℤ)
  · rw [if_pos hin]
    dsimp only
    by_cases hab : 0 ≤ a ∧ a < (img.width : ℤ) ∧ 0 ≤ b ∧ b < (img.height : ℤ)
    · rw [if_pos hab, if_pos hab, if_neg hne]
    · rw [if_neg hab, if_neg hab]
  · rw [if_neg hin]

theorem readPix_writePix_eq {img : Image} {x y : ℤ} {px : Pixel}
    (hin : 0 ≤ x ∧ x < (img.width : ℤ) ∧ 0 ≤ y ∧ y < (img.height : ℤ)) :
    readPix (writePix img x y px) x y = px := by
  unfold writePix readPix
  rw [if_pos hin]
  dsimp only
  rw [if_pos hin, if_pos ⟨rfl, rfl⟩]

theorem diffuseCell_frame (src : Image) (x y : ℕ) (eR eG eB : ℚ) (a b : ℤ)
    (h1 : ¬(a = (x : ℤ) + 1 ∧ b = (y : ℤ)))
    (h2 : ¬(a = (x : ℤ) - 1 ∧ b = (y : ℤ) + 1))
    (h3 : ¬(a = (x : ℤ) ∧ b = (y : ℤ) + 1))
    (h4 : ¬(a = (x : ℤ) + 1 ∧ b = (y : ℤ) + 1)) :
    readPix (diffuseCell src x y eR eG eB) a b = readPix src a b := by
  unfold diffuseCell ditheringPattern
  rw [List.foldl_cons, List.foldl_cons, List.foldl_cons, List.foldl_cons,
    List.foldl_nil]
  dsimp only
  rw [readPix_writePix_ne (by
    intro hc
    exact h4 ⟨hc.1, hc.2⟩)]
  rw [readPix_writePix_ne (by
    intro hc
    exact h3 ⟨by simpa using hc.1, hc.2⟩)]
  rw [readPix_writePix_ne (by
    intro hc
    exact h2 ⟨by omega, hc.2⟩)]
  rw [readPix_writePix_ne (by
    intro hc
    exact h1 ⟨hc.1, by simpa using hc.2⟩)]

theorem diffuseCell_right (src : Image) (x y : ℕ) (eR eG eB : ℚ)
    (hin : 0 ≤ (x : ℤ) + 1 ∧ (x : ℤ) + 1 < (src.width : ℤ) ∧
      0 ≤ (y : ℤ) ∧ (y : ℤ) < (src.height : ℤ)) :
    readPix (diffuseCell src x y eR eG eB) ((x : ℤ) + 1) (y : ℤ) =
      ⟨addClamped (readPix src ((x : ℤ) + 1) (y : ℤ)).r (eR * (7 / 16 * ditheringRate)),
       addClamped (readPix src ((x : ℤ) + 1) (y : ℤ)).g (eG * (7 / 16 * ditheringRate)),
       addClamped (readPix src ((x : ℤ) + 1) (y : ℤ)).b (eB * (7 / 16 * ditheringRate)),
       (readPix src ((x : ℤ) + 1) (y : ℤ)).a⟩ := by
  unfold diffuseCell ditheringPattern
  rw [List.foldl_cons, List.foldl_cons, List.foldl_cons, List.foldl_cons,
    List.foldl_nil]
  dsimp only
  simp only [add_zero]
  rw [readPix_writePix_ne (by rintro ⟨h1, h2⟩; omega)]
  rw [readPix_writePix_ne (by rintro ⟨h1, h2⟩; omega)]
  rw [readPix_writePix_ne (by rintro ⟨h1, h2⟩; omega)]
  rw [readPix_writePix_eq hin]

theorem diffuseCell_downLeft (src : Image) (x y : ℕ) (eR eG eB : ℚ)
    (hin : 0 ≤ (x : ℤ) + (-1) ∧ (x : ℤ) + (-1) < (src.width : ℤ) ∧
      0 ≤ (y : ℤ) + 1 ∧ (y : ℤ) + 1 < (src.height : ℤ)) :
    readPix (diffuseCell src x y eR eG eB) ((x : ℤ) + (-1)) ((y : ℤ) + 1) =
      ⟨addClamped (readPix src ((x : ℤ) + (-1)) ((y : ℤ) + 1)).r
          (eR * (3 / 16 * ditheringRate)),
       addClamped (readPix src ((x : ℤ) + (-1)) ((y : ℤ) + 1)).g
          (eG * (3 / 16 * ditheringRate)),
       addClamped (readPix src ((x : ℤ) + (-1)) ((y : ℤ) + 1)).b
          (eB * (3 / 16 * ditheringRate)),
       (readPix src ((x : ℤ) + (-1)) ((y : ℤ) + 1)).a⟩ := by
  unfold diffuseCell ditheringPattern
  rw [List.foldl_cons, List.foldl_cons, List.foldl_cons, List.foldl_cons,
    List.foldl_nil]
  dsimp only
  simp only [add_zero]
  rw [readPix_writePix_ne (by rintro ⟨h1, h2⟩; omega)]
  rw [readPix_writePix_ne (by rintro ⟨h1, h2⟩; omega)]
  have hin1 : 0 ≤ (x : ℤ) + (-1) ∧
      (x : ℤ) + (-1) < ((writePix src ((x : ℤ) + 1) (y : ℤ)
        ⟨addClamped (readPix src ((x : ℤ) + 1) (y : ℤ)).r (eR * (7 / 16 * ditheringRate)),
         addClamped (readPix src ((x : ℤ) + 1) (y : ℤ)).g (eG * (7 / 16 * ditheringRate)),
         addClamped (readPix src ((x : ℤ) + 1) (y : ℤ)).b (eB * (7 / 16 * ditheringRate)),
         (readPix src ((x : ℤ) + 1) (y : ℤ)).a⟩).width : ℤ) ∧
      0 ≤ (y : ℤ) + 1 ∧ (y : ℤ) + 1 < ((writePix src ((x : ℤ) + 1) (y : ℤ)
        ⟨addClamped (readPix src ((x : ℤ) + 1) (y : ℤ)).r (eR * (7 / 16 * ditheringRate)),
         addClamped (readPix src ((x : ℤ) + 1) (y : ℤ)).g (eG * (7 / 16 * ditheringRate)),
         addClamped (readPix src ((x : ℤ) + 1) (y : ℤ)).b (eB * (7 / 16 * ditheringRate)),
         (readPix src ((x : ℤ) + 1) (y : ℤ)).a⟩).height : ℤ) := by
    rw [writePix_width, writePix_height]
    exact hin
  rw [readPix_writePix_eq hin1]
  rw [readPix_writePix_ne (by rintro ⟨h1, h2⟩; omega)]

theorem diffuseCell_down (src : Image) (x y : ℕ) (eR eG eB : ℚ)
    (hin : 0 ≤ (x : ℤ) ∧ (x : ℤ) < (src.width : ℤ) ∧
      0 ≤ (y : ℤ) + 1 ∧ (y : ℤ) + 1 < (src.height : ℤ)) :
    readPix (diffuseCell src x y eR eG eB) (x : ℤ) ((y : ℤ) + 1) =
      ⟨addClamped (readPix src (x : ℤ) ((y : ℤ) + 1)).r (eR * (5 / 16 * ditheringRate)),
       addClamped (readPix src (x : ℤ) ((y : ℤ) + 1)).g (eG * (5 / 16 * ditheringRate)),
       addClamped (readPix src (x : ℤ) ((y : ℤ) + 1)).b (eB * (5 / 16 * ditheringRate)),
       (readPix src (x : ℤ) ((y : ℤ) + 1)).a⟩ := by
  unfold diffuseCell ditheringPattern
  rw [List.foldl_cons, List.foldl_cons, List.foldl_cons, List.foldl_cons,
    List.foldl_nil]
  dsimp only
  simp only [add_zero]
  rw [readPix_writePix_ne (by rintro ⟨h1, h2⟩; omega)]
  have hdims : ∀ i2 : Image, i2.width = src.width → i2.height = src.height →
      0 ≤ (x : ℤ) ∧ (x : ℤ) < (i2.width : ℤ) ∧
      0 ≤ (y : ℤ) + 1 ∧ (y : ℤ) + 1 < (i2.height : ℤ) := by
    intro i2 hw hh
    rw [hw, hh]
    exact hin
  rw [readPix_writePix_eq (hdims _ (by rw [writePix_width, writePix_width])
    (by rw [writePix_height, writePix_height]))]
  rw [readPix_writePix_ne (by rintro ⟨h1, h2⟩; omega)]
  rw [readPix_writePix_ne (by rintro ⟨h1, h2⟩; omega)]

theorem diffuseCell_downRight (src : Image) (x y : ℕ) (eR eG eB : ℚ)
    (hin : 0 ≤ (x : ℤ) + 1 ∧ (x : ℤ) + 1 < (src.width : ℤ) ∧
      0 ≤ (y : ℤ) + 1 ∧ (y : ℤ) + 1 < (src.height : ℤ)) :
    readPix (diffuseCell src x y eR eG eB) ((x : ℤ) + 1) ((y : ℤ) + 1) =
      ⟨addClamped (readPix src ((x : ℤ) + 1) ((y : ℤ) + 1)).r
          (eR * (1 / 16 * ditheringRate)),
       addClamped (readPix src ((x : ℤ) + 1) ((y : ℤ) + 1)).g
          (eG * (1 / 16 * ditheringRate)),
       addClamped (readPix src ((x : ℤ) + 1) ((y : ℤ) + 1)).b
          (eB * (1 / 16 * ditheringRate)),
       (readPix src ((x : ℤ) + 1) ((y : ℤ) + 1)).a⟩ := by
  unfold diffuseCell ditheringPattern
  rw [List.foldl_cons, List.foldl_cons, List.foldl_cons, List.foldl_cons,
    List.foldl_nil]
  dsimp only
  simp only [add_zero]
  have hdims : ∀ i3 : Image, i3.width = src.width → i3.height = src.height →
      0 ≤ (x : ℤ) + 1 ∧ (x : ℤ) + 1 < (i3.width : ℤ) ∧
      0 ≤ (y : ℤ) + 1 ∧ (y : ℤ) + 1 < (i3.height : ℤ) := by
    intro i3 hw hh
    rw [hw, hh]
    exact hin
  rw [readPix_writePix_eq (hdims _
    (by rw [writePix_width, writePix_width, writePix_width])
    (by rw [writePix_height, writePix_height, writePix_height]))]
  rw [readPix_writePix_ne (by rintro ⟨h1, h2⟩; omega)]
  rw [readPix_writePix_ne (by rintro ⟨h1, h2⟩; omega)]
  rw [readPix_writePix_ne (by rintro ⟨h1, h2⟩; omega)]

theorem neg_tmod_eq (a b : ℤ) : (Int.tmod (-a) b) = -(Int.tmod a b) := by
  rw [Int.tmod_def, Int.tmod_def, Int.neg_tdiv]
  ring

theorem natAbs_tmod_lt (a : ℤ) (n : ℕ) (hn : 0 < n) :
    (Int.tmod a (n : ℤ)).natAbs < n := by
  have hn' : (0 : ℤ) < (n : ℤ) := by exact_mod_cast hn
  cases a with
  | ofNat m =>
    rw [Int.tmod_eq_emod (by exact Int.ofNat_nonneg m) (le_of_lt hn')]
    have hlt : Int.ofNat m % (n : ℤ) < (n : ℤ) := Int.emod_lt_of_pos _ hn'
    have hge : (0 : ℤ) ≤ Int.ofNat m % (n : ℤ) :=
      Int.emod_nonneg _ (ne_of_gt hn')
    omega
  | negSucc m =>
    rw [show Int.negSucc m = -((m + 1 : ℕ) : ℤ) from rfl, neg_tmod_eq,
      Int.natAbs_neg]
    rw [Int.tmod_eq_emod (by positivity) (le_of_lt hn')]
    have hlt : ((m + 1 : ℕ) : ℤ) % (n : ℤ) < (n : ℤ) := Int.emod_lt_of_pos _ hn'
    have hge : (0 : ℤ) ≤ ((m + 1 : ℕ) : ℤ) % (n : ℤ) :=
      Int.emod_nonneg _ (ne_of_gt hn')
    omega

theorem quantizeCellPure_some (cfg : Config) (hwf : wfConfig cfg)
    (n w : List Pixel) (oy ox : ℕ) :
    ∃ v, quantizeCellPure cfg n w oy ox = some v := by
  obtain ⟨hton, hpal, hpals⟩ := hwf
  have hc1 : toneCandidates cfg oy ox ≠ [] := by
    unfold toneCandidates
    simpa using hton
  obtain ⟨p1, hp1, _⟩ := getBestPattern_isSome cfg n hc1
  have hth : tierHeads cfg ≠ [] := by
    unfold tierHeads paletteFromLightness
    simpa using hpal
  have hc2 : bgTierCandidates cfg p1.toneType oy ox ≠ [] := by
    unfold bgTierCandidates
    simpa using hth
  obtain ⟨p2, hp2, hmem2⟩ := getBestPattern_isSome cfg w hc2
  rcases List.mem_map.mp hmem2 with ⟨clr, hclr, hpe⟩
  have hbg : p2.backgroundColor ∈ tierHeads cfg := by
    rw [← hpe]
    exact hclr
  obtain ⟨pal, hlook, hpalmem⟩ := pfl_lookup hbg
  have hc3 : bgColorCandidates cfg p1.toneType p2.backgroundColor oy ox ≠ [] := by
    unfold bgColorCandidates
    rw [hlook]
    simpa using hpals pal hpalmem
  obtain ⟨p3, hp3, _⟩ := getBestPattern_isSome cfg w hc3
  have hc4 : fgTierCandidates cfg p1.toneType p3.backgroundColor oy ox ≠ [] := by
    unfold fgTierCandidates
    simpa using hth
  obtain ⟨p4, hp4, hmem4⟩ := getBestPattern_isSome cfg w hc4
  rcases List.mem_map.mp hmem4 with ⟨clr4, hclr4, hpe4⟩
  have hfg : p4.foregroundColor ∈ tierHeads cfg := by
    rw [← hpe4]
    exact hclr4
  obtain ⟨pal5, hlook5, hpalmem5⟩ := pfl_lookup hfg
  have hc5 : fgColorCandidates cfg p1.toneType p3.backgroundColor
      p4.foregroundColor oy ox ≠ [] := by
    unfold fgColorCandidates
    rw [hlook5]
    simpa using hpals pal5 hpalmem5
  obtain ⟨p5, hp5, _⟩ := getBestPattern_isSome cfg w hc5
  refine ⟨(p1.toneType, p3.backgroundColor, p5.foregroundColor), ?_⟩
  unfold quantizeCellPure
  rw [hp1]
  simp only [Option.some_bind]
  rw [hp2]
  simp only [Option.some_bind]
  rw [hp3]
  simp only [Option.some_bind]
  rw [hp4]
  simp only [Option.some_bind]
  rw [hp5]
  rfl

theorem quantizeCell_trace (cfg : Config) (n w : List Pixel) (oy ox : ℕ)
    (c : Cache) (r : QuantResult) (h : quantizeCell cfg c n w oy ox = some r) :
    ∃ t2 t4, r.trace = [⟨n, toneCandidates cfg oy ox⟩,
      ⟨w, bgTierCandidates cfg r.toneType oy ox⟩,
      ⟨w, bgColorCandidates cfg r.toneType t2 oy ox⟩,
      ⟨w, fgTierCandidates cfg r.toneType r.backgroundColor oy ox⟩,
      ⟨w, fgColorCandidates cfg r.toneType r.backgroundColor t4 oy ox⟩] := by
  unfold quantizeCell at h
  dsimp only at h
  rcases hS1 : getBestPatternS cfg c n (toneCandidates cfg oy ox) with ⟨o1, c1⟩
  rw [hS1] at h
  cases o1 with
  | none => cases h
  | some p1 =>
    dsimp only at h
    rcases hS2 : getBestPatternS cfg c1 w (bgTierCandidates cfg p1.toneType oy ox)
      with ⟨o2, c2⟩
    rw [hS2] at h
    cases o2 with
    | none => cases h
    | some p2 =>
      dsimp only at h
      rcases hS3 : getBestPatternS cfg c2 w
          (bgColorCandidates cfg p1.toneType p2.backgroundColor oy ox)
        with ⟨o3, c3⟩
      rw [hS3] at h
      cases o3 with
      | none => cases h
      | some p3 =>
        dsimp only at h
        rcases hS4 : getBestPatternS cfg c3 w
            (fgTierCandidates cfg p1.toneType p3.backgroundColor oy ox)
          with ⟨o4, c4⟩
        rw [hS4] at h
        cases o4 with
        | none => cases h
        | some p4 =>
          dsimp only at h
          rcases hS5 : getBestPatternS cfg c4 w
              (fgColorCandidates cfg p1.toneType p3.backgroundColor
                p4.foregroundColor oy ox)
            with ⟨o5, c5⟩
          rw [hS5] at h
          cases o5 with
          | none => cases h
          | some p5 =>
            dsimp only at h
            cases h
            exact ⟨p2.backgroundColor, p4.foregroundColor, rfl⟩

theorem processCell_congr (cfg : Config) (s : Image) (o : ℕ → ℕ → RGB)
    (c c' : Cache) (x y : ℕ) (hc : goodCache cfg c) (hc' : goodCache cfg c') :
    (processCell cfg (s, o, c) x y = none ∧
      processCell cfg (s, o, c') x y = none) ∨
    (∃ s2 o2 d d', processCell cfg (s, o, c) x y = some (s2, o2, d) ∧
      processCell cfg (s, o, c') x y = some (s2, o2, d') ∧
      goodCache cfg d ∧ goodCache cfg d') := by
  have h1 := quantizeCell_strip cfg
    (normalizeWindow (getWindow s ((x : ℤ) - (cfg.tonePeriod : ℤ) / 2)
      ((y : ℤ) - (cfg.tonePeriod : ℤ) / 2) cfg.tonePeriod))
    (getWindow s ((x : ℤ) - (cfg.tonePeriod : ℤ) / 2)
      ((y : ℤ) - (cfg.tonePeriod : ℤ) / 2) cfg.tonePeriod)
    (cellOffsets cfg x y).2 (cellOffsets cfg x y).1 c hc
  have h2 := quantizeCell_strip cfg
    (normalizeWindow (getWindow s ((x : ℤ) - (cfg.tonePeriod : ℤ) / 2)
      ((y : ℤ) - (cfg.tonePeriod : ℤ) / 2) cfg.tonePeriod))
    (getWindow s ((x : ℤ) - (cfg.tonePeriod : ℤ) / 2)
      ((y : ℤ) - (cfg.tonePeriod : ℤ) / 2) cfg.tonePeriod)
    (cellOffsets cfg x y).2 (cellOffsets cfg x y).1 c' hc'
  cases hq : quantizeCellPure cfg
      (normalizeWindow (getWindow s ((x : ℤ) - (cfg.tonePeriod : ℤ) / 2)
        ((y : ℤ) - (cfg.tonePeriod : ℤ) / 2) cfg.tonePeriod))
      (getWindow s ((x : ℤ) - (cfg.tonePeriod : ℤ) / 2)
        ((y : ℤ) - (cfg.tonePeriod : ℤ) / 2) cfg.tonePeriod)
      (cellOffsets cfg x y).2 (cellOffsets cfg x y).1 with
  | none =>
    have e1 : quantizeCell cfg c
        (normalizeWindow (getWindow s ((x : ℤ) - (cfg.tonePeriod : ℤ) / 2)
          ((y : ℤ) - (cfg.tonePeriod : ℤ) / 2) cfg.tonePeriod))
        (getWindow s ((x : ℤ) - (cfg.tonePeriod : ℤ) / 2)
          ((y : ℤ) - (cfg.tonePeriod : ℤ) / 2) cfg.tonePeriod)
        (cellOffsets cfg x y).2 (cellOffsets cfg x y).1 = none := by
      have hm := h1.1
      rw [hq] at hm
      exact Option.map_eq_none'.mp hm
    have e2 : quantizeCell cfg c'
        (normalizeWindow (getWindow s ((x : ℤ) - (cfg.tonePeriod : ℤ) / 2)
          ((y : ℤ) - (cfg.tonePeriod : ℤ) / 2) cfg.tonePeriod))
        (getWindow s ((x : ℤ) - (cfg.tonePeriod : ℤ) / 2)
          ((y : ℤ) - (cfg.tonePeriod : ℤ) / 2) cfg.tonePeriod)
        (cellOffsets cfg x y).2 (cellOffsets cfg x y).1 = none := by
      have hm := h2.1
      rw [hq] at hm
      exact Option.map_eq_none'.mp hm
    left
    constructor
    · unfold processCell
      dsimp only
      rw [e1]
    · unfold processCell
      dsimp only
      rw [e2]
  | some v =>
    have e1 : ∃ r1, quantizeCell cfg c
        (normalizeWindow (getWindow s ((x : ℤ) - (cfg.tonePeriod : ℤ) / 2)
          ((y : ℤ) - (cfg.tonePeriod : ℤ) / 2) cfg.tonePeriod))
        (getWindow s ((x : ℤ) - (cfg.tonePeriod : ℤ) / 2)
          ((y : ℤ) - (cfg.tonePeriod : ℤ) / 2) cfg.tonePeriod)
        (cellOffsets cfg x y).2 (cellOffsets cfg x y).1 = some r1 ∧
        stripQuant r1 = v := by
      have hm := h1.1
      rw [hq] at hm
      exact Option.map_eq_some'.mp hm
    have e2 : ∃ r2, quantizeCell cfg c'
        (normalizeWindow (getWindow s ((x : ℤ) - (cfg.tonePeriod : ℤ) / 2)
          ((y : ℤ) - (cfg.tonePeriod : ℤ) / 2) cfg.tonePeriod))
        (getWindow s ((x : ℤ) - (cfg.tonePeriod : ℤ) / 2)
          ((y : ℤ) - (cfg.tonePeriod : ℤ) / 2) cfg.tonePeriod)
        (cellOffsets cfg x y).2 (cellOffsets cfg x y).1 = some r2 ∧
        stripQuant r2 = v := by
      have hm := h2.1
      rw [hq] at hm
      exact Option.map_eq_some'.mp hm
    obtain ⟨r1, hr1, hs1⟩ := e1
    obtain ⟨r2, hr2, hs2⟩ := e2
    have g1 : goodCache cfg r1.cache := h1.2 r1 hr1
    have g2 : goodCache cfg r2.cache := h2.2 r2 hr2
    have t1 : r1.toneType = v.1 := congrArg Prod.fst hs1
    have b1 : r1.backgroundColor = v.2.1 := congrArg (fun z => z.2.1) hs1
    have f1 : r1.foregroundColor = v.2.2 := congrArg (fun z => z.2.2) hs1
    have t2 : r2.toneType = v.1 := congrArg Prod.fst hs2
    have b2 : r2.backgroundColor = v.2.1 := congrArg (fun z => z.2.1) hs2
    have f2 : r2.foregroundColor = v.2.2 := congrArg (fun z => z.2.2) hs2
    right
    refine ⟨diffuseCell s x y
        (((readPix s x y).r : ℚ) - (if toneBitmapAt (tonesGet cfg v.1)
            (y % cfg.tonePeriod) (x % cfg.tonePeriod) then v.2.2 else v.2.1).r)
        (((readPix s x y).g : ℚ) - (if toneBitmapAt (tonesGet cfg v.1)
            (y % cfg.tonePeriod) (x % cfg.tonePeriod) then v.2.2 else v.2.1).g)
        (((readPix s x y).b : ℚ) - (if toneBitmapAt (tonesGet cfg v.1)
            (y % cfg.tonePeriod) (x % cfg.tonePeriod) then v.2.2 else v.2.1).b),
      fun a b => if a = x ∧ b = y then (if toneBitmapAt (tonesGet cfg v.1)
          (y % cfg.tonePeriod) (x % cfg.tonePeriod) then v.2.2 else v.2.1)
        else o a b,
      r1.cache, r2.cache, ?_, ?_, g1, g2⟩
    · unfold processCell
      dsimp only
      rw [hr1]
      dsimp only
      rw [t1, b1, f1]
    · unfold processCell
      dsimp only
      rw [hr2]
      dsimp only
      rw [t2, b2, f2]

theorem foldl_step_none (cfg : Config) :
    ∀ (cells : List (ℕ × ℕ)),
      cells.foldl (fun st? cell => st?.bind
        (fun st => processCell cfg st cell.1 cell.2)) none = none := by
  intro cells
  induction cells with
  | nil => rfl
  | cons cell rest ih =>
    rw [List.foldl_cons]
    exact ih

theorem pipeFold_congr (cfg : Config) :
    ∀ (cells : List (ℕ × ℕ)) (s : Image) (o : ℕ → ℕ → RGB) (c c' : Cache),
      goodCache cfg c → goodCache cfg c' →
      (cells.foldl (fun st? cell => st?.bind
          (fun st => processCell cfg st cell.1 cell.2)) (some (s, o, c)) = none ∧
       cells.foldl (fun st? cell => st?.bind
          (fun st => processCell cfg st cell.1 cell.2)) (some (s, o, c')) = none) ∨
      (∃ s2 o2 d d',
        cells.foldl (fun st? cell => st?.bind
          (fun st => processCell cfg st cell.1 cell.2)) (some (s, o, c)) =
            some (s2, o2, d) ∧
        cells.foldl (fun st? cell => st?.bind
          (fun st => processCell cfg st cell.1 cell.2)) (some (s, o, c')) =
            some (s2, o2, d') ∧
        goodCache cfg d ∧ goodCache cfg d') := by
  intro cells
  induction cells with
  | nil =>
    intro s o c c' hc hc'
    right
    exact ⟨s, o, c, c', rfl, rfl, hc, hc'⟩
  | cons cell rest ih =>
    intro s o c c' hc hc'
    rw [List.foldl_cons, List.foldl_cons]
    simp only [Option.some_bind]
    rcases processCell_congr cfg s o c c' cell.1 cell.2 hc hc' with
      ⟨hn, hn'⟩ | ⟨s2, o2, d, d', hp, hp', gd, gd'⟩
    · left
      rw [hn, hn']
      exact ⟨foldl_step_none cfg rest, foldl_step_none cfg rest⟩
    · rw [hp, hp']
      exact ih s2 o2 d d' gd gd'

/-- C2: for every non-empty candidate list and every window (under the cache
invariant), `getBestPattern` returns the candidate at the first index
attaining the minimum accumulated distance: its distance is strictly lower
than every earlier candidate's, and a later candidate with an equal distance
never replaces it. -/
theorem bestPattern_first_strict_min (cfg : Config) (c : Cache)
    (data : List Pixel) (p0 : Pattern) (rest : List Pattern)
    (h : goodCache cfg c) :
    ∃ i, i < (p0 :: rest).length ∧
      (getBestPatternS cfg c data (p0 :: rest)).1 =
        some ((p0 :: rest).getD i default) ∧
      (∀ j, j < i → patternDistance cfg data ((p0 :: rest).getD i default) <
        patternDistance cfg data ((p0 :: rest).getD j default)) ∧
      (∀ j, j < (p0 :: rest).length →
        patternDistance cfg data ((p0 :: rest).getD i default) ≤
        patternDistance cfg data ((p0 :: rest).getD j default)) := by
  rw [getBestPatternS_fst data (p0 :: rest) h]
  exact getBestPattern_firstMin cfg data p0 rest

/-- Witness for C2 on a concrete window with a two-candidate tie. -/
theorem bestPattern_first_strict_min_witness :
    ∃ i, i < (demoPattern :: [demoPattern]).length ∧
      (getBestPatternS demoCfg [] demoWindow (demoPattern :: [demoPattern])).1 =
        some ((demoPattern :: [demoPattern]).getD i default) ∧
      (∀ j, j < i →
        patternDistance demoCfg demoWindow
          ((demoPattern :: [demoPattern]).getD i default) <
        patternDistance demoCfg demoWindow
          ((demoPattern :: [demoPattern]).getD j default)) ∧
      (∀ j, j < (demoPattern :: [demoPattern]).length →
        patternDistance demoCfg demoWindow
          ((demoPattern :: [demoPattern]).getD i default) ≤
        patternDistance demoCfg demoWindow
          ((demoPattern :: [demoPattern]).getD j default)) :=
  bestPattern_first_strict_min demoCfg [] demoWindow demoPattern [demoPattern]
    (goodCache_nil demoCfg)

/-- C3: `getPatternImageData` returns the stored tile with the cache
unchanged on a hit for the exact five-part key; on a miss it renders the
tile whose pixel (x, y) is the foreground color exactly when
`tone.bitmap[(y + offsetY) % P][(x + offsetX) % P]` holds and the background
color otherwise, with fully opaque alpha, stores it and returns it. -/
theorem renderOrFetch_cache_semantics (cfg : Config) (c : Cache) (p : Pattern) :
    (∀ t, alookup c p = some t → getPatternImageDataS cfg c p = (t, c)) ∧
    (alookup c p = none → getPatternImageDataS cfg c p =
      (renderPattern cfg p, (p, renderPattern cfg p) :: c)) ∧
    (∀ x y, x < cfg.tonePeriod → y < cfg.tonePeriod →
      (renderPattern cfg p).getD (y * cfg.tonePeriod + x) default =
        (if toneBitmapAt (tonesGet cfg p.toneType)
            ((y + p.offsetY) % cfg.tonePeriod) ((x + p.offsetX) % cfg.tonePeriod)
         then Pixel.mk p.foregroundColor.r p.foregroundColor.g
           p.foregroundColor.b 255
         else Pixel.mk p.backgroundColor.r p.backgroundColor.g
           p.backgroundColor.b 255)) :=
  ⟨fun _ ht => getPID_hit ht, fun hn => getPID_miss hn,
   fun _ _ hx hy => renderPattern_getD cfg p hx hy⟩

/-- Witness for C3: a miss on the empty cache renders and stores, and the
rendered pixel at (0, 0) follows the bitmap formula. -/
theorem renderOrFetch_cache_semantics_witness :
    getPatternImageDataS demoCfg [] demoPattern =
      (renderPattern demoCfg demoPattern,
       (demoPattern, renderPattern demoCfg demoPattern) :: []) ∧
    (renderPattern demoCfg demoPattern).getD 0 default =
      (if toneBitmapAt (tonesGet demoCfg demoPattern.toneType)
          ((0 + demoPattern.offsetY) % demoCfg.tonePeriod)
          ((0 + demoPattern.offsetX) % demoCfg.tonePeriod)
       then Pixel.mk demoPattern.foregroundColor.r demoPattern.foregroundColor.g
         demoPattern.foregroundColor.b 255
       else Pixel.mk demoPattern.backgroundColor.r demoPattern.backgroundColor.g
         demoPattern.backgroundColor.b 255) := by
  have h := renderOrFetch_cache_semantics demoCfg [] demoPattern
  exact ⟨h.2.1 rfl, h.2.2 0 0 (by decide) (by decide)⟩

/-- C6: on a window in which no pixel is fully opaque, the distance loop
accumulates 0 for every candidate without touching the cache, and the first
candidate of the list is returned; this is defined behavior. -/
theorem transparent_window_first_candidate (cfg : Config) (c : Cache)
    (data : List Pixel) (p0 : Pattern) (rest : List Pattern)
    (h : ∀ px ∈ data, px.a ≠ 255) :
    (∀ p, patternDistanceS cfg c data p = (0, c)) ∧
    getBestPatternS cfg c data (p0 :: rest) = (some p0, c) := by
  have hstep : ∀ p (acc : ℤ × Cache) i, distStepS cfg data p acc i = acc := by
    intro p acc i
    unfold distStepS
    by_cases hi : i < data.length
    · have hmem : data.getD i default ∈ data := by
        rw [List.getD_eq_getElem _ _ hi]
        exact List.getElem_mem _
      rw [if_pos (h _ hmem)]
    · rw [List.getD_eq_default _ _ (le_of_not_lt hi)]
      rw [if_pos (by decide : (default : Pixel).a ≠ 255)]
  have hfold : ∀ p (is : List ℕ) (st : ℤ × Cache),
      is.foldl (distStepS cfg data p) st = st := by
    intro p is
    induction is with
    | nil => intro st; rfl
    | cons i rest' ih =>
      intro st
      rw [List.foldl_cons, hstep]
      exact ih st
  have hdist : ∀ p, patternDistanceS cfg c data p = (0, c) := by
    intro p
    unfold patternDistanceS
    exact hfold p _ _
  refine ⟨hdist, ?_⟩
  have hb : ∀ q, bestStepS cfg data (p0, some 0, c) q = (p0, some 0, c) := by
    intro q
    unfold bestStepS
    dsimp only
    rw [hdist q]
    simp
  have hkeep : ∀ (ps : List Pattern),
      ps.foldl (bestStepS cfg data) (p0, some 0, c) = (p0, some 0, c) := by
    intro ps
    induction ps with
    | nil => rfl
    | cons q qs ih =>
      rw [List.foldl_cons, hb q]
      exact ih
  have e : getBestPatternS cfg c data (p0 :: rest) =
      (some ((p0 :: rest).foldl (bestStepS cfg data) (p0, none, c)).1,
       ((p0 :: rest).foldl (bestStepS cfg data) (p0, none, c)).2.2) := rfl
  have hb0 : bestStepS cfg data (p0, none, c) p0 = (p0, some 0, c) := by
    unfold bestStepS
    dsimp only
    rw [hdist p0]
  rw [e, List.foldl_cons, hb0, hkeep rest]

/-- Witness for C6 on a concrete fully transparent window. -/
theorem transparent_window_first_candidate_witness :
    (∀ p, patternDistanceS demoCfg [] demoClear p = (0, [])) ∧
    getBestPatternS demoCfg [] demoClear (demoPattern :: []) =
      (some demoPattern, []) :=
  transparent_window_first_candidate demoCfg [] demoClear demoPattern []
    (by decide)

/-- C7: the pattern cache is idempotent and write-once: under the cache
invariant the fetched tile is the rendered tile of its key (hence
bit-identical across renders and independent of the order in which other
keys were rendered first), existing entries are never mutated or evicted,
the invariant is preserved, and repeating the fetch returns the same tile
with the cache unchanged. -/
theorem patternCache_write_once (cfg : Config) (c : Cache) (p : Pattern)
    (h : goodCache cfg c) :
    (getPatternImageDataS cfg c p).1 = renderPattern cfg p ∧
    goodCache cfg (getPatternImageDataS cfg c p).2 ∧
    cacheExtends c (getPatternImageDataS cfg c p).2 ∧
    getPatternImageDataS cfg (getPatternImageDataS cfg c p).2 p =
      ((getPatternImageDataS cfg c p).1, (getPatternImageDataS cfg c p).2) := by
  obtain ⟨h1, h2, h3, h4⟩ := getPID_spec p h
  refine ⟨h1, h2, h3, ?_⟩
  rw [getPID_hit h4, h1]

/-- Witness for C7 on the empty cache and a concrete key. -/
theorem patternCache_write_once_witness :
    (getPatternImageDataS demoCfg [] demoPattern).1 =
      renderPattern demoCfg demoPattern ∧
    goodCache demoCfg (getPatternImageDataS demoCfg [] demoPattern).2 ∧
    cacheExtends [] (getPatternImageDataS demoCfg [] demoPattern).2 ∧
    getPatternImageDataS demoCfg (getPatternImageDataS demoCfg [] demoPattern).2
        demoPattern =
      ((getPatternImageDataS demoCfg [] demoPattern).1,
       (getPatternImageDataS demoCfg [] demoPattern).2) :=
  patternCache_write_once demoCfg [] demoPattern (goodCache_nil demoCfg)

/-- C9: window normalization leaves every pixel whose alpha is not 255
byte-for-byte unchanged through both passes, never changes any alpha
channel, and its lightness statistics are computed from the solid pixels
only: they are unchanged under any modification of the non-solid pixels. -/
theorem normalization_skips_transparent (w : List Pixel) :
    (∀ i, i < w.length → (w.getD i default).a ≠ 255 →
      (normalizeWindow w).getD i default = w.getD i default) ∧
    (∀ i, i < w.length →
      ((normalizeWindow w).getD i default).a = (w.getD i default).a) ∧
    (lightnesses w = (w.filter (fun px => px.a = 255)).map lumaQ) ∧
    (∀ w' : List Pixel, w'.length = w.length →
      (∀ i, i < w.length →
        ((w.getD i default).a = 255 ↔ (w'.getD i default).a = 255) ∧
        ((w.getD i default).a = 255 → w.getD i default = w'.getD i default)) →
      minLightness w = minLightness w' ∧ maxLightness w = maxLightness w') := by
  refine ⟨?_, ?_, rfl, ?_⟩
  · intro i hi ha
    rw [normalizeWindow_getD hi, grayscalePixel_transparent ha,
      normalizePixel_transparent ha]
  · intro i hi
    rw [normalizeWindow_getD hi, normalizePixel_alpha, grayscalePixel_alpha]
  · intro w' hlen hpt
    have hl : lightnesses w = lightnesses w' := lightnesses_congr w w' hlen.symm hpt
    constructor
    · unfold minLightness
      rw [hl]
    · unfold maxLightness
      rw [hl]

/-- Witness for C9 on a concrete window with one transparent pixel. -/
theorem normalization_skips_transparent_witness :
    (normalizeWindow demoWindow).getD 2 default = demoWindow.getD 2 default ∧
    ((normalizeWindow demoWindow).getD 0 default).a =
      (demoWindow.getD 0 default).a := by
  have h := normalization_skips_transparent demoWindow
  exact ⟨h.1 2 (by decide) (by decide), h.2.1 0 (by decide)⟩

/-- C10: for every cell position the phase offsets
`Math.abs((x - tonePeriod/2) % tonePeriod)` (and likewise for y) lie in
[0, tonePeriod), so cache-array indexing by offset and the tone-bitmap
indices reduced modulo tonePeriod stay in bounds. -/
theorem cell_offsets_in_bounds (cfg : Config) (x y : ℕ)
    (hP : 0 < cfg.tonePeriod) (_hE : 2 ∣ cfg.tonePeriod) :
    (cellOffsets cfg x y).1 < cfg.tonePeriod ∧
    (cellOffsets cfg x y).2 < cfg.tonePeriod ∧
    ∀ j : ℕ, (j + (cellOffsets cfg x y).1) % cfg.tonePeriod < cfg.tonePeriod ∧
      (j + (cellOffsets cfg x y).2) % cfg.tonePeriod < cfg.tonePeriod :=
  ⟨natAbs_tmod_lt _ _ hP, natAbs_tmod_lt _ _ hP,
   fun _ => ⟨Nat.mod_lt _ hP, Nat.mod_lt _ hP⟩⟩

/-- Witness for C10 at a concrete even period and cell. -/
theorem cell_offsets_in_bounds_witness :
    (cellOffsets demoCfg 0 0).1 < demoCfg.tonePeriod ∧
    (cellOffsets demoCfg 0 0).2 < demoCfg.tonePeriod ∧
    ∀ j : ℕ, (j + (cellOffsets demoCfg 0 0).1) % demoCfg.tonePeriod <
        demoCfg.tonePeriod ∧
      (j + (cellOffsets demoCfg 0 0).2) % demoCfg.tonePeriod <
        demoCfg.tonePeriod :=
  cell_offsets_in_bounds demoCfg 0 0 (by decide) (by decide)

/-- C4: the ditherer diffuses the per-channel quantization error into exactly
the four source-buffer neighbors (+1,0), (-1,+1), (0,+1), (+1,+1) with the
fixed weights 7/16, 3/16, 5/16, 1/16 respectively, each scaled by the single
global dithering-rate constant; every other pixel is untouched, and the
absolute values of the four diffused shares sum to at most the original
error magnitude. -/
theorem ditherer_diffusion_spec :
    ditheringPattern.map (fun e => (e.deltaX, e.deltaY)) =
      [(1, 0), (-1, 1), (0, 1), (1, 1)] ∧
    ditheringPattern.map (fun e => e.rate) =
      [7 / 16 * ditheringRate, 3 / 16 * ditheringRate,
       5 / 16 * ditheringRate, 1 / 16 * ditheringRate] ∧
    (∀ (src : Image) (x y : ℕ) (eR eG eB : ℚ) (a b : ℤ),
      ¬(a = (x : ℤ) + 1 ∧ b = (y : ℤ)) →
      ¬(a = (x : ℤ) - 1 ∧ b = (y : ℤ) + 1) →
      ¬(a = (x : ℤ) ∧ b = (y : ℤ) + 1) →
      ¬(a = (x : ℤ) + 1 ∧ b = (y : ℤ) + 1) →
      readPix (diffuseCell src x y eR eG eB) a b = readPix src a b) ∧
    (∀ (src : Image) (x y : ℕ) (eR eG eB : ℚ),
      (0 ≤ (x : ℤ) + 1 ∧ (x : ℤ) + 1 < (src.width : ℤ) ∧
          0 ≤ (y : ℤ) ∧ (y : ℤ) < (src.height : ℤ) →
        readPix (diffuseCell src x y eR eG eB) ((x : ℤ) + 1) (y : ℤ) =
          ⟨addClamped (readPix src ((x : ℤ) + 1) (y : ℤ)).r
              (eR * (7 / 16 * ditheringRate)),
           addClamped (readPix src ((x : ℤ) + 1) (y : ℤ)).g
              (eG * (7 / 16 * ditheringRate)),
           addClamped (readPix src ((x : ℤ) + 1) (y : ℤ)).b
              (eB * (7 / 16 * ditheringRate)),
           (readPix src ((x : ℤ) + 1) (y : ℤ)).a⟩) ∧
      (0 ≤ (x : ℤ) + (-1) ∧ (x : ℤ) + (-1) < (src.width : ℤ) ∧
          0 ≤ (y : ℤ) + 1 ∧ (y : ℤ) + 1 < (src.height : ℤ) →
        readPix (diffuseCell src x y eR eG eB) ((x : ℤ) + (-1)) ((y : ℤ) + 1) =
          ⟨addClamped (readPix src ((x : ℤ) + (-1)) ((y : ℤ) + 1)).r
              (eR * (3 / 16 * ditheringRate)),
           addClamped (readPix src ((x : ℤ) + (-1)) ((y : ℤ) + 1)).g
              (eG * (3 / 16 * ditheringRate)),
           addClamped (readPix src ((x : ℤ) + (-1)) ((y : ℤ) + 1)).b
              (eB * (3 / 16 * ditheringRate)),
           (readPix src ((x : ℤ) + (-1)) ((y : ℤ) + 1)).a⟩) ∧
      (0 ≤ (x : ℤ) ∧ (x : ℤ) < (src.width : ℤ) ∧
          0 ≤ (y : ℤ) + 1 ∧ (y : ℤ) + 1 < (src.height : ℤ) →
        readPix (diffuseCell src x y eR eG eB) (x : ℤ) ((y : ℤ) + 1) =
          ⟨addClamped (readPix src (x : ℤ) ((y : ℤ) + 1)).r
              (eR * (5 / 16 * ditheringRate)),
           addClamped (readPix src (x : ℤ) ((y : ℤ) + 1)).g
              (eG * (5 / 16 * ditheringRate)),
           addClamped (readPix src (x : ℤ) ((y : ℤ) + 1)).b
              (eB * (5 / 16 * ditheringRate)),
           (readPix src (x : ℤ) ((y : ℤ) + 1)).a⟩) ∧
      (0 ≤ (x : ℤ) + 1 ∧ (x : ℤ) + 1 < (src.width : ℤ) ∧
          0 ≤ (y : ℤ) + 1 ∧ (y : ℤ) + 1 < (src.height : ℤ) →
        readPix (diffuseCell src x y eR eG eB) ((x : ℤ) + 1) ((y : ℤ) + 1) =
          ⟨addClamped (readPix src ((x : ℤ) + 1) ((y : ℤ) + 1)).r
              (eR * (1 / 16 * ditheringRate)),
           addClamped (readPix src ((x : ℤ) + 1) ((y : ℤ) + 1)).g
              (eG * (1 / 16 * ditheringRate)),
           addClamped (readPix src ((x : ℤ) + 1) ((y : ℤ) + 1)).b
              (eB * (1 / 16 * ditheringRate)),
           (readPix src ((x : ℤ) + 1) ((y : ℤ) + 1)).a⟩)) ∧
    (∀ e : ℚ, (ditheringPattern.map (fun en => |e * en.rate|)).sum ≤ |e|) := by
  refine ⟨rfl, rfl, ?_, ?_, ?_⟩
  · intro src x y eR eG eB a b h1 h2 h3 h4
    exact diffuseCell_frame src x y eR eG eB a b h1
      (by rw [sub_eq_add_neg] at h2; exact h2) h3 h4
  · intro src x y eR eG eB
    exact ⟨diffuseCell_right src x y eR eG eB,
      diffuseCell_downLeft src x y eR eG eB,
      diffuseCell_down src x y eR eG eB,
      diffuseCell_downRight src x y eR eG eB⟩
  · intro e
    simp only [ditheringPattern, ditheringRate, List.map_cons, List.map_nil,
      List.sum_cons, List.sum_nil, abs_mul]
    have h716 : |(7 : ℚ) / 16| = 7 / 16 := by norm_num
    have h316 : |(3 : ℚ) / 16| = 3 / 16 := by norm_num
    have h516 : |(5 : ℚ) / 16| = 5 / 16 := by norm_num
    have h116 : |(1 : ℚ) / 16| = 1 / 16 := by norm_num
    have h12 : |(1 : ℚ) / 2| = 1 / 2 := by norm_num
    rw [h716, h316, h516, h116, h12]
    have hnn := abs_nonneg e
    linarith

/-- Witness for C4 at a concrete error value. -/
theorem ditherer_diffusion_spec_witness :
    readPix (diffuseCell demoEmptyImage 0 0 1 1 1) 5 5 =
      readPix demoEmptyImage 5 5 ∧
    (ditheringPattern.map (fun en => |(8 : ℚ) * en.rate|)).sum ≤ |(8 : ℚ)| := by
  have h := ditherer_diffusion_spec
  exact ⟨h.2.2.1 demoEmptyImage 0 0 1 1 1 5 5 (by decide) (by decide)
    (by decide) (by decide), h.2.2.2.2 8⟩

/-- C5: on a window whose solid pixels all share one lightness the
normalization pass divides by zero, but the `Uint8ClampedArray` store maps
the resulting NaN or infinity to a defined byte (0 or 255): both statistics
equal the common lightness, every solid pixel of the normalized window gets
the same defined gray byte, and quantization of the window still returns a
triple, reproducibly: a rerun with the cache produced by the first run
returns the same triple. -/
theorem flat_window_normalization_defined (cfg : Config) (w : List Pixel)
    (cavg : ℚ) (c : Cache) (oy ox : ℕ)
    (hall : ∀ px ∈ w, px.a = 255 → lumaQ px = cavg)
    (hne : ∃ px ∈ w, px.a = 255)
    (hwf : wfConfig cfg) (hc : goodCache cfg c) :
    maxLightness w = cavg ∧ minLightness w = cavg ∧
    (∀ i, i < w.length → (w.getD i default).a = 255 →
      (normalizeWindow w).getD i default =
        Pixel.mk (if 0 < ((clampQByte cavg : ℚ) - cavg) * 255 then 255 else 0)
          (if 0 < ((clampQByte cavg : ℚ) - cavg) * 255 then 255 else 0)
          (if 0 < ((clampQByte cavg : ℚ) - cavg) * 255 then 255 else 0) 255) ∧
    (∃ r, quantizeCell cfg c (normalizeWindow w) w oy ox = some r ∧
      ∃ r', quantizeCell cfg r.cache (normalizeWindow w) w oy ox = some r' ∧
        stripQuant r' = stripQuant r) := by
  have hmax : maxLightness w = cavg := maxLightness_const hall hne
  have hmin : minLightness w = cavg := minLightness_const hall hne
  refine ⟨hmax, hmin, ?_, ?_⟩
  · intro i hi hsolid
    have hmem : w.getD i default ∈ w := by
      rw [List.getD_eq_getElem _ _ hi]
      exact List.getElem_mem _
    have hluma : lumaQ (w.getD i default) = cavg := hall _ hmem hsolid
    rw [normalizeWindow_getD hi]
    unfold grayscalePixel
    rw [if_neg (by rw [hsolid]; exact fun hx => hx rfl)]
    unfold normalizePixel
    dsimp only
    rw [if_neg (by rw [hsolid]; exact fun hx => hx rfl)]
    rw [hluma, hmin, hmax, sub_self, clampJsByte_div_zero, hsolid]
  · obtain ⟨v, hv⟩ := quantizeCellPure_some cfg hwf (normalizeWindow w) w oy ox
    have s1 := quantizeCell_strip cfg (normalizeWindow w) w oy ox c hc
    have hm1 := s1.1
    rw [hv] at hm1
    obtain ⟨r, hr, hsr⟩ := Option.map_eq_some'.mp hm1
    have hg := s1.2 r hr
    have s2 := quantizeCell_strip cfg (normalizeWindow w) w oy ox r.cache hg
    have hm2 := s2.1
    rw [hv] at hm2
    obtain ⟨r', hr', hsr'⟩ := Option.map_eq_some'.mp hm2
    exact ⟨r, hr, r', hr', hsr'.trans hsr.symm⟩

/-- Witness for C5: the all-solid uniform mid-gray window. -/
theorem flat_window_normalization_defined_witness :
    maxLightness demoUniform = 128 ∧ minLightness demoUniform = 128 ∧
    (∀ i, i < demoUniform.length → (demoUniform.getD i default).a = 255 →
      (normalizeWindow demoUniform).getD i default =
        Pixel.mk (if 0 < ((clampQByte 128 : ℚ) - 128) * 255 then 255 else 0)
          (if 0 < ((clampQByte 128 : ℚ) - 128) * 255 then 255 else 0)
          (if 0 < ((clampQByte 128 : ℚ) - 128) * 255 then 255 else 0) 255) ∧
    (∃ r, quantizeCell demoCfg [] (normalizeWindow demoUniform) demoUniform
        0 0 = some r ∧
      ∃ r', quantizeCell demoCfg r.cache (normalizeWindow demoUniform)
          demoUniform 0 0 = some r' ∧
        stripQuant r' = stripQuant r) :=
  flat_window_normalization_defined demoCfg demoUniform 128 [] 0 0
    (by
      intro px hmem _
      have he : px = ⟨128, 128, 128, 255⟩ := List.eq_of_mem_replicate hmem
      rw [he]
      norm_num [lumaQ])
    ⟨⟨128, 128, 128, 255⟩, by simp [demoUniform], rfl⟩
    (by
      unfold wfConfig
      refine ⟨by decide, by decide, by decide⟩)
    (goodCache_nil demoCfg)

/-- C1 counterexample: on a concrete configuration and window, the per-cell
selection performs five `getBestPattern` calls, not four. -/
theorem quantizer_four_calls_counterexample :
    (quantizeCell demoCfg [] demoWindow demoWindow 0 0).map
      (fun r => r.trace.length) = some 5 ∧ (5 : ℕ) ≠ 4 := by
  exact ⟨by decide, by decide⟩

/-- C1 (amended): the quantizer resolves each cell triple via five sequential
`getBestPattern` calls — tone, background tier, background color, foreground
tier, foreground color — each narrowing the search using the previous
results: the tone stage searches the lightness-normalized window with both
anchor colors held fixed, and all four color sub-stages search the
un-normalized window, holding the already-resolved fields fixed. -/
theorem quantizer_five_stage_structure (cfg : Config) (c : Cache)
    (normalized window : List Pixel) (oy ox : ℕ)
    (hwf : wfConfig cfg) (hc : goodCache cfg c) :
    ∃ r, quantizeCell cfg c normalized window oy ox = some r ∧
      r.trace.length = 5 ∧
      (r.trace.getD 0 default).data = normalized ∧
      (∀ i, 1 ≤ i → i < 5 → (r.trace.getD i default).data = window) ∧
      (r.trace.getD 0 default).candidates = toneCandidates cfg oy ox ∧
      (∀ q ∈ (r.trace.getD 0 default).candidates,
        q.backgroundColor = anchorLight cfg ∧
        q.foregroundColor = anchorDark cfg) ∧
      (∀ q ∈ (r.trace.getD 1 default).candidates,
        q.toneType = r.toneType ∧ q.foregroundColor = anchorDark cfg) ∧
      (∀ q ∈ (r.trace.getD 2 default).candidates,
        q.toneType = r.toneType ∧ q.foregroundColor = anchorDark cfg) ∧
      (∀ q ∈ (r.trace.getD 3 default).candidates,
        q.toneType = r.toneType ∧ q.backgroundColor = r.backgroundColor) ∧
      (∀ q ∈ (r.trace.getD 4 default).candidates,
        q.toneType = r.toneType ∧ q.backgroundColor = r.backgroundColor) := by
  obtain ⟨v, hv⟩ := quantizeCellPure_some cfg hwf normalized window oy ox
  have hs := quantizeCell_strip cfg normalized window oy ox c hc
  have hm := hs.1
  rw [hv] at hm
  obtain ⟨r, hr, _⟩ := Option.map_eq_some'.mp hm
  obtain ⟨t2, t4, htr⟩ := quantizeCell_trace cfg normalized window oy ox c r hr
  refine ⟨r, hr, ?_, ?_, ?_, ?_, ?_, ?_, ?_, ?_, ?_⟩
  · rw [htr]
    rfl
  · rw [htr]
    rfl
  · intro i h1 h5
    rw [htr]
    interval_cases i <;> rfl
  · rw [htr]
    rfl
  · rw [htr]
    intro q hq
    rcases List.mem_map.mp hq with ⟨t, _, rfl⟩
    exact ⟨rfl, rfl⟩
  · rw [htr]
    intro q hq
    rcases List.mem_map.mp hq with ⟨clr, _, rfl⟩
    exact ⟨rfl, rfl⟩
  · rw [htr]
    intro q hq
    rcases List.mem_map.mp hq with ⟨clr, _, rfl⟩
    exact ⟨rfl, rfl⟩
  · rw [htr]
    intro q hq
    rcases List.mem_map.mp hq with ⟨clr, _, rfl⟩
    exact ⟨rfl, rfl⟩
  · rw [htr]
    intro q hq
    rcases List.mem_map.mp hq with ⟨clr, _, rfl⟩
    exact ⟨rfl, rfl⟩

/-- Witness for the amended C1 at a concrete configuration and window. -/
theorem quantizer_five_stage_structure_witness :
    ∃ r, quantizeCell demoCfg [] demoWindow demoWindow 0 0 = some r ∧
      r.trace.length = 5 ∧
      (r.trace.getD 0 default).data = demoWindow ∧
      (∀ i, 1 ≤ i → i < 5 → (r.trace.getD i default).data = demoWindow) ∧
      (r.trace.getD 0 default).candidates = toneCandidates demoCfg 0 0 ∧
      (∀ q ∈ (r.trace.getD 0 default).candidates,
        q.backgroundColor = anchorLight demoCfg ∧
        q.foregroundColor = anchorDark demoCfg) ∧
      (∀ q ∈ (r.trace.getD 1 default).candidates,
        q.toneType = r.toneType ∧ q.foregroundColor = anchorDark demoCfg) ∧
      (∀ q ∈ (r.trace.getD 2 default).candidates,
        q.toneType = r.toneType ∧ q.foregroundColor = anchorDark demoCfg) ∧
      (∀ q ∈ (r.trace.getD 3 default).candidates,
        q.toneType = r.toneType ∧ q.backgroundColor = r.backgroundColor) ∧
      (∀ q ∈ (r.trace.getD 4 default).candidates,
        q.toneType = r.toneType ∧ q.backgroundColor = r.backgroundColor) :=
  quantizer_five_stage_structure demoCfg [] demoWindow demoWindow 0 0
    (by
      unfold wfConfig
      refine ⟨by decide, by decide, by decide⟩)
    (goodCache_nil demoCfg)

/-- C8: the whole filter pass is deterministic: rerunning `applyMibaeFilter`
on the identical source buffer, initial output grid and configuration, with
the pattern cache left by a first run, reproduces exactly the same final
source buffer and output grid, cell for cell in the same row-major order. -/
theorem mibae_filter_deterministic (cfg : Config) (src : Image)
    (out0 : ℕ → ℕ → RGB) (c : Cache) (h : goodCache cfg c)
    (s1 : Image) (o1 : ℕ → ℕ → RGB) (c1 : Cache)
    (hrun : applyMibaeFilter cfg src out0 c = some (s1, o1, c1)) :
    ∃ c2, applyMibaeFilter cfg src out0 c1 = some (s1, o1, c2) := by
  have ha : applyMibaeFilter cfg src out0 c =
      (cellList src.width src.height).foldl (fun st? cell => st?.bind
        (fun st => processCell cfg st cell.1 cell.2)) (some (src, out0, c)) := rfl
  rw [ha] at hrun
  have hg1 : goodCache cfg c1 := by
    rcases pipeFold_congr cfg (cellList src.width src.height) src out0 c c h h
      with ⟨hn, _⟩ | ⟨s2, o2, d, d', hp, _, gd, _⟩
    · rw [hn] at hrun
      cases hrun
    · have heq := Option.some.inj (hp.symm.trans hrun)
      have hd : d = c1 := congrArg (fun z => z.2.2) heq
      rw [← hd]
      exact gd
  rcases pipeFold_congr cfg (cellList src.width src.height) src out0 c c1 h hg1
    with ⟨hn, _⟩ | ⟨s2, o2, d, d', hp, hp', _, _⟩
  · rw [hn] at hrun
    cases hrun
  · have heq := Option.some.inj (hp.symm.trans hrun)
    have hs : s2 = s1 := congrArg (fun z => z.1) heq
    have ho : o2 = o1 := congrArg (fun z => z.2.1) heq
    refine ⟨d', ?_⟩
    have ha' : applyMibaeFilter cfg src out0 c1 =
        (cellList src.width src.height).foldl (fun st? cell => st?.bind
          (fun st => processCell cfg st cell.1 cell.2)) (some (src, out0, c1)) := rfl
    rw [ha', hp', hs, ho]

/-- Witness for C8 on a concrete pipeline run. -/
theorem mibae_filter_deterministic_witness :
    ∃ c2, applyMibaeFilter demoCfg demoEmptyImage demoOut [] =
      some (demoEmptyImage, demoOut, c2) :=
  mibae_filter_deterministic demoCfg demoEmptyImage demoOut []
    (goodCache_nil demoCfg) demoEmptyImage demoOut [] rfl

end Kanvas
